import Mathlib

/-!
# Cascaded second-order-section IIR driver (`iirHW_AcceleratorDriver.c`)

A shallow embedding of the filter engine of `iirHW_AcceleratorDriver.c`:

* the C type `int` is `Int` together with the explicit 32-bit two's-complement
  wraparound `wrap32`, applied after every C arithmetic operator;
* the global arrays are total functions on `Nat` indices, written with `setAt`;
  the code only ever touches indices inside the declared bounds;
* a `for (i = 0; i < N; i++)` loop is a left fold of its body over `List.range N`.

Definitions come first (the embedding of the source, then the reference
definitions that follow the specification), theorems afterwards.
-/

namespace IirDriver

/-! ## Constants (`#define`s of the source) -/

/-- Source constant `BUFFER_SIZE`. -/
def BUFFER_SIZE : Nat := 2048
/-- Source constant `FRAME_LENGTH`. -/
def FRAME_LENGTH : Nat := 32
/-- Source constant `TOTAL_NO_OF_FRAMES`, defined as `BUFFER_SIZE / FRAME_LENGTH`. -/
def TOTAL_NO_OF_FRAMES : Nat := BUFFER_SIZE / FRAME_LENGTH
/-- Source constant `NO_OF_CHANNELS`. -/
def NO_OF_CHANNELS : Nat := 8
/-- Source constant `NO_OF_SOS_STAGES`. -/
def NO_OF_SOS_STAGES : Nat := 8
/-- Source constant `SOS_HIST_SIZE`. -/
def SOS_HIST_SIZE : Nat := 2
/-- Source constant `NO_OF_COEFFS_PER_SOS`. -/
def NO_OF_COEFFS_PER_SOS : Nat := 5

/-! ## 32-bit signed arithmetic -/

/-- Reduction of an integer to the signed 32-bit value congruent to it modulo `2^32`. -/
def wrap32 (z : Int) : Int := (z + 2147483648) % 4294967296 - 2147483648

/-- Predicate: the integer is a value of the C type `int` (32 bit, signed). -/
def isInt32 (z : Int) : Prop := -2147483648 ≤ z ∧ z < 2147483648

instance (z : Int) : Decidable (isInt32 z) := by
  unfold isInt32; infer_instance

/-- C `a * b` on `int` with wraparound. -/
def mul32 (a b : Int) : Int := wrap32 (a * b)
/-- C `a + b` on `int` with wraparound. -/
def add32 (a b : Int) : Int := wrap32 (a + b)
/-- C `a - b` on `int` with wraparound. -/
def sub32 (a b : Int) : Int := wrap32 (a - b)

/-! ## Memory -/

/-- Array store `a[i] = v`. -/
def setAt {α : Type} (a : Nat → α) (i : Nat) (v : α) : Nat → α :=
  fun j => if j = i then v else a j

/-- The global arrays of the program. -/
structure State where
  /-- Source array `audioInput[NO_OF_CHANNELS][BUFFER_SIZE]`. -/
  audioInput : Nat → Nat → Int
  /-- Source array `audioOutput[NO_OF_CHANNELS][BUFFER_SIZE]`. -/
  audioOutput : Nat → Nat → Int
  /-- Source array `inputBuf[NO_OF_CHANNELS][FRAME_LENGTH]`. -/
  inputBuf : Nat → Nat → Int
  /-- Source array `outputBuf[NO_OF_CHANNELS][FRAME_LENGTH]`. -/
  outputBuf : Nat → Nat → Int
  /-- Source array `sosCoeffBuff[NO_OF_CHANNELS][NO_OF_SOS_STAGES][NO_OF_COEFFS_PER_SOS]`. -/
  sosCoeffBuff : Nat → Nat → Nat → Int
  /-- Source array `sosHistBuf[NO_OF_CHANNELS][NO_OF_SOS_STAGES][SOS_HIST_SIZE]`. -/
  sosHistBuf : Nat → Nat → Nat → Int

/-! ## The engine, from the source -/

/-- Source function `iirSoS`: the result is the returned sample together with the
history row after the two stores through `histPtr`. -/
def iirSoS (inpSample : Int) (sosCoeffPtr : Nat → Int) (histPtr : Nat → Int) :
    Int × (Nat → Int) :=
  let tmpSampleOut := add32 (mul32 (sosCoeffPtr 0) inpSample) (histPtr 0)
  let hist1 := setAt histPtr 0
    (add32 (sub32 (mul32 (sosCoeffPtr 1) inpSample) (mul32 (sosCoeffPtr 3) tmpSampleOut))
      (histPtr 1))
  let hist2 := setAt hist1 1
    (sub32 (mul32 (sosCoeffPtr 2) inpSample) (mul32 (sosCoeffPtr 4) tmpSampleOut))
  (tmpSampleOut, hist2)

/-- Body of the `sosIndex` loop of `iirHWAcclDriver`: one call of `iirSoS` on the
coefficient row and history row of `(chIndex, sosIndex)`; the accumulator is the
state together with `tmpInOut`. -/
def sosLoopBody (chIndex : Nat) (acc : State × Int) (sosIndex : Nat) : State × Int :=
  let r := iirSoS acc.2 (acc.1.sosCoeffBuff chIndex sosIndex) (acc.1.sosHistBuf chIndex sosIndex)
  ({ acc.1 with
      sosHistBuf := setAt acc.1.sosHistBuf chIndex (setAt (acc.1.sosHistBuf chIndex) sosIndex r.2) },
    r.1)

/-- Body of the `smplIndex` loop of `iirHWAcclDriver`. -/
def smplLoopBody (chIndex : Nat) (st : State) (smplIndex : Nat) : State :=
  let tmpInOut := st.inputBuf chIndex smplIndex
  let r := (List.range NO_OF_SOS_STAGES).foldl (sosLoopBody chIndex) (st, tmpInOut)
  { r.1 with
    outputBuf := setAt r.1.outputBuf chIndex (setAt (r.1.outputBuf chIndex) smplIndex r.2) }

/-- Body of the `chIndex` loop of `iirHWAcclDriver`. -/
def chLoopBody (st : State) (chIndex : Nat) : State :=
  (List.range FRAME_LENGTH).foldl (smplLoopBody chIndex) st

/-- Source function `iirHWAcclDriver`. -/
def iirHWAcclDriver (st : State) : State :=
  (List.range NO_OF_CHANNELS).foldl chLoopBody st

/-! ## Reading a channel out of the state -/

/-- The five coefficients `[b0, b1, b2, a1, a2]` of one stage. -/
structure SosCoeffs where
  /-- Coefficient slot 0. -/
  b0 : Int
  /-- Coefficient slot 1. -/
  b1 : Int
  /-- Coefficient slot 2. -/
  b2 : Int
  /-- Coefficient slot 3. -/
  a1 : Int
  /-- Coefficient slot 4. -/
  a2 : Int
  deriving DecidableEq

/-- The history pair `(s1, s2)` of one stage. -/
abbrev SosHist := Int × Int

/-- The coefficient set stored in `sosCoeffBuff[ch][i]`. -/
def coeffsOf (st : State) (ch i : Nat) : SosCoeffs :=
  ⟨st.sosCoeffBuff ch i 0, st.sosCoeffBuff ch i 1, st.sosCoeffBuff ch i 2,
    st.sosCoeffBuff ch i 3, st.sosCoeffBuff ch i 4⟩

/-- The history pair stored in `sosHistBuf[ch][i]`. -/
def histOf (st : State) (ch i : Nat) : SosHist :=
  (st.sosHistBuf ch i 0, st.sosHistBuf ch i 1)

/-- The coefficient sets of the stages `0 .. NO_OF_SOS_STAGES-1` of a channel. -/
def chanCoeffs (st : State) (ch : Nat) : List SosCoeffs :=
  (List.range NO_OF_SOS_STAGES).map (coeffsOf st ch)

/-- The history pairs of the stages `0 .. NO_OF_SOS_STAGES-1` of a channel. -/
def chanHists (st : State) (ch : Nat) : List SosHist :=
  (List.range NO_OF_SOS_STAGES).map (histOf st ch)

/-- The input frame `inputBuf[ch][0 .. FRAME_LENGTH-1]`. -/
def chanInput (st : State) (ch : Nat) : List Int :=
  (List.range FRAME_LENGTH).map (st.inputBuf ch)

/-- The output frame `outputBuf[ch][0 .. FRAME_LENGTH-1]`. -/
def chanOutput (st : State) (ch : Nat) : List Int :=
  (List.range FRAME_LENGTH).map (st.outputBuf ch)

/-- The state with the input frame buffers replaced (the frame hand-over before a
driver invocation). -/
def withInput (st : State) (frame : Nat → Nat → Int) : State :=
  { st with inputBuf := frame }

/-- Successive driver invocations, one per frame buffer content in the list. -/
def runFrames (st : State) (frames : List (Nat → Nat → Int)) : State :=
  frames.foldl (fun s f => iirHWAcclDriver (withInput s f)) st

/-- The output frames of one channel produced by successive driver invocations, one
per frame buffer content in the list. -/
def outputsOfFrames (ch : Nat) : State → List (Nat → Nat → Int) → List (List Int)
  | _, [] => []
  | st, f :: fs =>
    chanOutput (iirHWAcclDriver (withInput st f)) ch
      :: outputsOfFrames ch (iirHWAcclDriver (withInput st f)) fs

/-! ## Reference definitions, following the specification -/

/-- Biquad Stage Evaluator of the specification:
`y = b0*x + s1`, `s1' = b1*x - a1*y + s2`, `s2' = b2*x - a2*y`, as 32-bit values. -/
def stageEval (c : SosCoeffs) (x : Int) (h : SosHist) : Int × SosHist :=
  let y := wrap32 (c.b0 * x + h.1)
  (y, (wrap32 (c.b1 * x - c.a1 * y + h.2), wrap32 (c.b2 * x - c.a2 * y)))

/-- Channel Cascade Executor of the specification: the left fold of the stage
evaluator over the ordered list of (coefficient set, history) pairs, starting from
the input sample; the new histories are collected in stage order. -/
def cascade (stages : List (SosCoeffs × SosHist)) (x : Int) : Int × List SosHist :=
  stages.foldl
    (fun acc p => ((stageEval p.1 acc.1 p.2).1, acc.2 ++ [(stageEval p.1 acc.1 p.2).2]))
    (x, [])

/-- One channel run sample by sample, in list order: every sample goes through the
cascade with the histories left by the samples before it. -/
def runChannel (cs : List SosCoeffs) : List SosHist → List Int → List Int × List SosHist
  | hs, [] => ([], hs)
  | hs, x :: xs =>
    ((cascade (cs.zip hs) x).1 :: (runChannel cs (cascade (cs.zip hs) x).2 xs).1,
      (runChannel cs (cascade (cs.zip hs) x).2 xs).2)

/-- One stage run sample by sample by repeated `iirSoS` calls on the same
coefficient row and history row: the outputs, the history row after every call,
and the final history row. -/
def runSoS (sosCoeffPtr : Nat → Int) : (Nat → Int) → List Int → List Int × List (Nat → Int)
  | _, [] => ([], [])
  | histPtr, x :: xs =>
    ((iirSoS x sosCoeffPtr histPtr).1 :: (runSoS sosCoeffPtr (iirSoS x sosCoeffPtr histPtr).2 xs).1,
      (iirSoS x sosCoeffPtr histPtr).2 :: (runSoS sosCoeffPtr (iirSoS x sosCoeffPtr histPtr).2 xs).2)

/-! ## Concrete data used by the examples -/

/-- Array literal: the row holding the listed values, zero elsewhere. -/
def rowOf (l : List Int) : Nat → Int := fun k => l.getD k 0

/-- Coefficient row `[1,0,0,0,0]`. -/
def identityCoeffs : Nat → Int := rowOf [1, 0, 0, 0, 0]

/-- Coefficient row `[b0=2, b1=1, b2=1, a1=0, a2=0]` of the worked example. -/
def exampleCoeffs : Nat → Int := rowOf [2, 1, 1, 0, 0]

/-- History row `(0,0)`. -/
def zeroHist : Nat → Int := rowOf [0, 0]

/-- The state in which every array is zero. -/
def zeroState : State :=
  { audioInput := fun _ _ => 0, audioOutput := fun _ _ => 0, inputBuf := fun _ _ => 0,
    outputBuf := fun _ _ => 0, sosCoeffBuff := fun _ _ _ => 0, sosHistBuf := fun _ _ _ => 0 }

/-- A state with non-trivial contents: every channel has the same coefficients
(stage `i`, slot `k` holds `i + k - 2`), zero histories, and the ramp `n ↦ n` in
every input frame buffer. -/
def rampState : State :=
  { audioInput := fun _ _ => 0, audioOutput := fun _ _ => 0,
    inputBuf := fun _ n => (n : Int),
    outputBuf := fun _ _ => 0,
    sosCoeffBuff := fun _ i k => (i : Int) + (k : Int) - 2,
    sosHistBuf := fun _ _ _ => 0 }

/-- The state `rampState` with channel 0 given other coefficients, input and
histories; the other channels are as in `rampState`. -/
def rampStateOther : State :=
  { rampState with
    inputBuf := fun ch n => if ch = 0 then 5 else (n : Int),
    sosCoeffBuff := fun ch i k => if ch = 0 then 3 else (i : Int) + (k : Int) - 2,
    sosHistBuf := fun ch _ _ => if ch = 0 then 9 else 0 }

/-- A frame buffer content: the same ramp in every channel. -/
def rampFrame : Nat → Nat → Int := fun _ n => 2 * (n : Int) + 1

/-- A frame buffer content: the constant 7 in every channel. -/
def constFrame : Nat → Nat → Int := fun _ _ => 7

/-- A state whose stage 0 is `[0,1,0,0,0]` in every channel and whose other stages
have all coefficients zero; histories are zero. -/
def deadEndState : State :=
  { zeroState with sosCoeffBuff := fun _ i k => if i = 0 ∧ k = 1 then 1 else 0 }

/-- A frame buffer content: the constant 1 in every channel. -/
def onesFrame : Nat → Nat → Int := fun _ _ => 1

/-- Entrywise 32-bit sum of two history pairs. -/
def addHist (h h' : SosHist) : SosHist := (add32 h.1 h'.1, add32 h.2 h'.2)

/-- Coefficient row `[1,0,0,1,1]`: slots 3 and 4 hold the value 1. -/
def feedbackCoeffs : Nat → Int := rowOf [1, 0, 0, 1, 1]

/-- The history row after the samples of the list have been fed, in order, to
`iirSoS` on the same coefficient row. -/
def histAfter (sosCoeffPtr : Nat → Int) (histPtr : Nat → Int) (xs : List Int) : Nat → Int :=
  xs.foldl (fun g x => (iirSoS x sosCoeffPtr g).2) histPtr

/-- The entry `l[n-k]` of a sequence, taken as zero before the start of the sequence. -/
def delayed (l : List Int) (n k : Nat) : Int := if k ≤ n then l.getD (n - k) 0 else 0

/-- The state `rampState` with the constant 7 in every input frame buffer and the
value 1 in every history entry. -/
def offsetState : State :=
  { rampState with inputBuf := constFrame, sosHistBuf := fun _ _ _ => 1 }

/-- The state whose input frame buffers and histories are the entrywise sums of those
of `rampState` and `offsetState`; the coefficients are those of `rampState`. -/
def sumState : State :=
  { rampState with inputBuf := fun _ n => (n : Int) + 7, sosHistBuf := fun _ _ _ => 1 }

/-! ## The computation in unbounded integers -/

/-- Reduction of both entries of a history pair to 32-bit values. -/
def wrapHist (h : SosHist) : SosHist := (wrap32 h.1, wrap32 h.2)

/-- The stage equations evaluated in unbounded integers (no reduction to 32 bits). -/
def stageEvalZ (c : SosCoeffs) (x : Int) (h : SosHist) : Int × SosHist :=
  let y := c.b0 * x + h.1
  (y, (c.b1 * x - c.a1 * y + h.2, c.b2 * x - c.a2 * y))

/-- The cascade evaluated in unbounded integers, stage after stage in list order. -/
def cascadeZ : List (SosCoeffs × SosHist) → Int → Int × List SosHist
  | [], x => (x, [])
  | (c, h) :: rest, x =>
    ((cascadeZ rest (stageEvalZ c x h).1).1,
      (stageEvalZ c x h).2 :: (cascadeZ rest (stageEvalZ c x h).1).2)

/-- One channel run sample by sample in unbounded integers. -/
def runChannelZ (cs : List SosCoeffs) : List SosHist → List Int → List Int × List SosHist
  | hs, [] => ([], hs)
  | hs, x :: xs =>
    ((cascadeZ (cs.zip hs) x).1 :: (runChannelZ cs (cascadeZ (cs.zip hs) x).2 xs).1,
      (runChannelZ cs (cascadeZ (cs.zip hs) x).2 xs).2)

/-! ## The frame loop of `main`, from the source -/

/-- Source statement
`memcpy(&inputBuf[ch][0], &audioInput[ch][frame], FRAME_LENGTH * sizeof(int))`. -/
def copyFrameIn (frame : Nat) (st : State) (ch : Nat) : State :=
  { st with
    inputBuf := setAt st.inputBuf ch
      (fun n => if n < FRAME_LENGTH then st.audioInput ch (frame + n) else st.inputBuf ch n) }

/-- Body of the `frame` loop of `main`: the copy loop over the channels, then one call
of `iirHWAcclDriver`. -/
def frameLoopBody (st : State) (frame : Nat) : State :=
  iirHWAcclDriver ((List.range NO_OF_CHANNELS).foldl (copyFrameIn frame) st)

/-- A loop `for (i = start; i < bound; i += step) body`, run with the given fuel from
the loop value `i`. -/
def forStep {σ : Type} (bound step : Nat) (body : σ → Nat → σ) : Nat → Nat → σ → σ
  | 0, _, s => s
  | fuel + 1, i, s =>
    if i < bound then forStep bound step body fuel (i + step) (body s i) else s

/-- The `frame` loop of `main`:
`for (frame = 0; frame < TOTAL_NO_OF_FRAMES; frame += FRAME_LENGTH)`. -/
def mainFrameLoop (fuel : Nat) (st : State) : State :=
  forStep TOTAL_NO_OF_FRAMES FRAME_LENGTH frameLoopBody fuel 0 st

/-- A state at the entry of the frame loop of `main`: stream sample `n` of every
channel is `n + 1`, every stage has the coefficients `[1,0,0,0,0]`, and the other
arrays are zero as at program start. -/
def passState : State :=
  { zeroState with
    audioInput := fun _ n => (n : Int) + 1,
    sosCoeffBuff := fun _ _ k => if k = 0 then 1 else 0 }

/-- The state `passState` with the constant 5 in the input frame buffer of channel 0
and zeros in the input frame buffers of the other channels. -/
def splitState : State :=
  { passState with inputBuf := fun ch _ => if ch = 0 then 5 else 0 }

/-! ## Arithmetic of `wrap32` -/

theorem wrap32_isInt32 (z : Int) : isInt32 (wrap32 z) := by
  unfold isInt32 wrap32; omega

theorem wrap32_of_isInt32 {z : Int} (h : isInt32 z) : wrap32 z = z := by
  unfold isInt32 at h; unfold wrap32; omega

theorem wrap32_zero : wrap32 0 = 0 := by decide

theorem wrap32_modEq (z : Int) : wrap32 z ≡ z [ZMOD 4294967296] := by
  unfold wrap32 Int.ModEq; omega

theorem wrap32_eq_of_modEq {a b : Int} (h : a ≡ b [ZMOD 4294967296]) :
    wrap32 a = wrap32 b := by
  unfold Int.ModEq at h; unfold wrap32; omega

theorem modEq_of_wrap32_eq {a b : Int} (h : wrap32 a = wrap32 b) :
    a ≡ b [ZMOD 4294967296] := by
  unfold wrap32 at h; unfold Int.ModEq; omega

theorem wrap32_wrap32 (z : Int) : wrap32 (wrap32 z) = wrap32 z :=
  wrap32_of_isInt32 (wrap32_isInt32 z)

/-! ## One stage -/

theorem setAt_same {α : Type} (a : Nat → α) (i : Nat) (v : α) : setAt a i v i = v := by
  simp [setAt]

theorem setAt_other {α : Type} (a : Nat → α) (i j : Nat) (v : α) (h : j ≠ i) :
    setAt a i v j = a j := by
  simp [setAt, h]

theorem iirSoS_out (x : Int) (c h : Nat → Int) :
    (iirSoS x c h).1 = wrap32 (c 0 * x + h 0) := by
  simp only [iirSoS, add32, mul32]
  exact wrap32_eq_of_modEq ((wrap32_modEq _).add (Int.ModEq.refl _))

theorem iirSoS_hist0 (x : Int) (c h : Nat → Int) :
    (iirSoS x c h).2 0 = wrap32 (c 1 * x - c 3 * (iirSoS x c h).1 + h 1) := by
  simp only [iirSoS, add32, mul32, sub32, setAt]
  simp only [show (0 : Nat) ≠ 1 from by decide, if_false, if_true]
  refine wrap32_eq_of_modEq (Int.ModEq.add ?_ (Int.ModEq.refl _))
  exact (wrap32_modEq _).trans ((wrap32_modEq _).sub (wrap32_modEq _))

theorem iirSoS_hist1 (x : Int) (c h : Nat → Int) :
    (iirSoS x c h).2 1 = wrap32 (c 2 * x - c 4 * (iirSoS x c h).1) := by
  simp only [iirSoS, add32, mul32, sub32, setAt, if_true]
  exact wrap32_eq_of_modEq ((wrap32_modEq _).sub (wrap32_modEq _))

theorem iirSoS_hist_other (x : Int) (c h : Nat → Int) (k : Nat) (hk : 2 ≤ k) :
    (iirSoS x c h).2 k = h k := by
  have h0 : k ≠ 0 := by omega
  have h1 : k ≠ 1 := by omega
  simp [iirSoS, setAt, h0, h1]

/-- `iirSoS` on the rows of a stage computes the stage evaluator of the specification. -/
theorem iirSoS_eq_stageEval (x : Int) (c h : Nat → Int) :
    ((iirSoS x c h).1, ((iirSoS x c h).2 0, (iirSoS x c h).2 1))
      = stageEval ⟨c 0, c 1, c 2, c 3, c 4⟩ x (h 0, h 1) := by
  rw [iirSoS_hist0, iirSoS_hist1, iirSoS_out]
  rfl

theorem stageEval_out_isInt32 (c : SosCoeffs) (x : Int) (h : SosHist) :
    isInt32 (stageEval c x h).1 := wrap32_isInt32 _

theorem stageEval_zero (c : SosCoeffs) : stageEval c 0 (0, 0) = (0, (0, 0)) := by
  simp [stageEval, wrap32_zero]

/-! ## The cascade -/

theorem cascade_nil (x : Int) : cascade [] x = (x, []) := rfl

theorem cascade_foldl_acc (l : List (SosCoeffs × SosHist)) (x : Int) (acc : List SosHist) :
    l.foldl
        (fun a p => ((stageEval p.1 a.1 p.2).1, a.2 ++ [(stageEval p.1 a.1 p.2).2])) (x, acc)
      = ((cascade l x).1, acc ++ (cascade l x).2) := by
  induction l generalizing x acc with
  | nil => simp [cascade]
  | cons p t ih =>
    have h1 := ih (stageEval p.1 x p.2).1 (acc ++ [(stageEval p.1 x p.2).2])
    have h2 := ih (stageEval p.1 x p.2).1 [(stageEval p.1 x p.2).2]
    simp only [cascade, List.foldl_cons, List.nil_append] at h1 h2 ⊢
    rw [h1, h2]
    simp

theorem cascade_cons (c : SosCoeffs) (h : SosHist) (rest : List (SosCoeffs × SosHist))
    (x : Int) :
    cascade ((c, h) :: rest) x
      = ((cascade rest (stageEval c x h).1).1,
          (stageEval c x h).2 :: (cascade rest (stageEval c x h).1).2) := by
  have h1 := cascade_foldl_acc rest (stageEval c x h).1 [(stageEval c x h).2]
  simp only [cascade, List.foldl_cons, List.nil_append] at h1 ⊢
  rw [h1]
  simp

theorem cascade_length (l : List (SosCoeffs × SosHist)) (x : Int) :
    (cascade l x).2.length = l.length := by
  induction l generalizing x with
  | nil => simp [cascade_nil]
  | cons p t ih => obtain ⟨c, h⟩ := p; simp [cascade_cons, ih]

/-! ## The stage loop of the driver -/

theorem sosLoopBody_out (ch : Nat) (st : State) (x : Int) (i : Nat) :
    (sosLoopBody ch (st, x) i).2 = (stageEval (coeffsOf st ch i) x (histOf st ch i)).1 := by
  have h := congrArg Prod.fst (iirSoS_eq_stageEval x (st.sosCoeffBuff ch i) (st.sosHistBuf ch i))
  exact h

theorem sosLoopBody_hist (ch : Nat) (st : State) (x : Int) (i : Nat) :
    histOf (sosLoopBody ch (st, x) i).1 ch i
      = (stageEval (coeffsOf st ch i) x (histOf st ch i)).2 := by
  have h := congrArg Prod.snd (iirSoS_eq_stageEval x (st.sosCoeffBuff ch i) (st.sosHistBuf ch i))
  simpa [histOf, sosLoopBody, setAt] using h

theorem sosLoopBody_hist_other (ch : Nat) (acc : State × Int) (i c j k : Nat)
    (h : c ≠ ch ∨ j ≠ i ∨ 2 ≤ k) :
    (sosLoopBody ch acc i).1.sosHistBuf c j k = acc.1.sosHistBuf c j k := by
  simp only [sosLoopBody]
  by_cases hc : c = ch
  · subst hc
    rw [setAt_same]
    by_cases hj : j = i
    · subst hj
      have hk : 2 ≤ k := by
        rcases h with h | h | h
        · exact absurd rfl h
        · exact absurd rfl h
        · exact h
      rw [setAt_same]
      exact iirSoS_hist_other _ _ _ k hk
    · rw [setAt_other _ _ _ _ hj]
  · rw [setAt_other _ _ _ _ hc]

theorem sosLoop_frame (ch : Nat) (l : List Nat) (acc : State × Int) :
    (l.foldl (sosLoopBody ch) acc).1.audioInput = acc.1.audioInput ∧
    (l.foldl (sosLoopBody ch) acc).1.audioOutput = acc.1.audioOutput ∧
    (l.foldl (sosLoopBody ch) acc).1.inputBuf = acc.1.inputBuf ∧
    (l.foldl (sosLoopBody ch) acc).1.outputBuf = acc.1.outputBuf ∧
    (l.foldl (sosLoopBody ch) acc).1.sosCoeffBuff = acc.1.sosCoeffBuff := by
  induction l generalizing acc with
  | nil => simp
  | cons i t ih =>
    obtain ⟨h1, h2, h3, h4, h5⟩ := ih (sosLoopBody ch acc i)
    simp only [List.foldl_cons]
    exact ⟨h1, h2, h3, h4, h5⟩

theorem sosLoop_hist_other (ch : Nat) (l : List Nat) (acc : State × Int) (c j k : Nat)
    (h : c ≠ ch ∨ j ∉ l ∨ 2 ≤ k) :
    (l.foldl (sosLoopBody ch) acc).1.sosHistBuf c j k = acc.1.sosHistBuf c j k := by
  induction l generalizing acc with
  | nil => simp
  | cons i t ih =>
    simp only [List.foldl_cons]
    rw [ih (sosLoopBody ch acc i)]
    · apply sosLoopBody_hist_other
      rcases h with h | h | h
      · exact Or.inl h
      · exact Or.inr (Or.inl (fun e => h (by simp [e])))
      · exact Or.inr (Or.inr h)
    · rcases h with h | h | h
      · exact Or.inl h
      · exact Or.inr (Or.inl (fun e => h (List.mem_cons_of_mem _ e)))
      · exact Or.inr (Or.inr h)

theorem sosLoop_cascade (ch : Nat) (l : List Nat) (hl : l.Nodup) (st : State) (x : Int) :
    ((l.foldl (sosLoopBody ch) (st, x)).2,
        l.map (histOf (l.foldl (sosLoopBody ch) (st, x)).1 ch))
      = cascade (l.map fun i => (coeffsOf st ch i, histOf st ch i)) x := by
  induction l generalizing st x with
  | nil => simp [cascade_nil]
  | cons i t ih =>
    obtain ⟨hi, ht⟩ := List.nodup_cons.mp hl
    have hmap : (t.map fun j => (coeffsOf (sosLoopBody ch (st, x) i).1 ch j,
          histOf (sosLoopBody ch (st, x) i).1 ch j))
        = t.map fun j => (coeffsOf st ch j, histOf st ch j) := by
      apply List.map_congr_left
      intro j hj
      have hji : j ≠ i := fun e => hi (e ▸ hj)
      have h0 := sosLoopBody_hist_other ch (st, x) i ch j 0 (Or.inr (Or.inl hji))
      have h1 := sosLoopBody_hist_other ch (st, x) i ch j 1 (Or.inr (Or.inl hji))
      simp only [histOf, h0, h1]
      rfl
    have e : ((t.foldl (sosLoopBody ch) (sosLoopBody ch (st, x) i)).2,
          t.map (histOf (t.foldl (sosLoopBody ch) (sosLoopBody ch (st, x) i)).1 ch))
        = cascade (t.map fun j => (coeffsOf st ch j, histOf st ch j))
            (stageEval (coeffsOf st ch i) x (histOf st ch i)).1 := by
      have e0 := ih ht (sosLoopBody ch (st, x) i).1 (sosLoopBody ch (st, x) i).2
      rw [hmap] at e0
      rw [← sosLoopBody_out]
      exact e0
    simp only [List.foldl_cons, List.map_cons, cascade_cons]
    have e1 := congrArg Prod.fst e
    have e2 := congrArg Prod.snd e
    simp only at e1 e2
    have hh : histOf (t.foldl (sosLoopBody ch) (sosLoopBody ch (st, x) i)).1 ch i
        = (stageEval (coeffsOf st ch i) x (histOf st ch i)).2 := by
      rw [← sosLoopBody_hist]
      simp only [histOf]
      rw [sosLoop_hist_other ch t _ ch i 0 (Or.inr (Or.inl hi)),
        sosLoop_hist_other ch t _ ch i 1 (Or.inr (Or.inl hi))]
    rw [hh, ← e1, ← e2]

/-! ## Views of a channel depend on the rows of that channel only -/

theorem chanCoeffs_congr (st st' : State) (ch ch' : Nat)
    (h : st'.sosCoeffBuff ch' = st.sosCoeffBuff ch) : chanCoeffs st' ch' = chanCoeffs st ch := by
  have e : coeffsOf st' ch' = coeffsOf st ch := by
    funext i
    simp only [coeffsOf, h]
  simp only [chanCoeffs, e]

theorem chanHists_congr (st st' : State) (ch ch' : Nat)
    (h : st'.sosHistBuf ch' = st.sosHistBuf ch) : chanHists st' ch' = chanHists st ch := by
  have e : histOf st' ch' = histOf st ch := by
    funext i
    simp only [histOf, h]
  simp only [chanHists, e]

theorem chanInput_congr (st st' : State) (ch ch' : Nat)
    (h : st'.inputBuf ch' = st.inputBuf ch) : chanInput st' ch' = chanInput st ch := by
  simp only [chanInput, h]

theorem chanOutput_congr (st st' : State) (ch ch' : Nat)
    (h : st'.outputBuf ch' = st.outputBuf ch) : chanOutput st' ch' = chanOutput st ch := by
  simp only [chanOutput, h]

/-! ## The sample loop of the driver -/

theorem smplLoopBody_frame (ch : Nat) (st : State) (n : Nat) :
    (smplLoopBody ch st n).audioInput = st.audioInput ∧
    (smplLoopBody ch st n).audioOutput = st.audioOutput ∧
    (smplLoopBody ch st n).inputBuf = st.inputBuf ∧
    (smplLoopBody ch st n).sosCoeffBuff = st.sosCoeffBuff := by
  obtain ⟨h1, h2, h3, _, h5⟩ :=
    sosLoop_frame ch (List.range NO_OF_SOS_STAGES) (st, st.inputBuf ch n)
  exact ⟨h1, h2, h3, h5⟩

theorem smplLoopBody_out_other (ch : Nat) (st : State) (n c m : Nat) (h : c ≠ ch ∨ m ≠ n) :
    (smplLoopBody ch st n).outputBuf c m = st.outputBuf c m := by
  obtain ⟨_, _, _, h4, _⟩ :=
    sosLoop_frame ch (List.range NO_OF_SOS_STAGES) (st, st.inputBuf ch n)
  simp only [smplLoopBody]
  by_cases hc : c = ch
  · subst hc
    have hm : m ≠ n := by
      rcases h with h | h
      · exact absurd rfl h
      · exact h
    rw [setAt_same, setAt_other _ _ _ _ hm, h4]
  · rw [setAt_other _ _ _ _ hc, h4]

theorem smplLoopBody_hist_other (ch : Nat) (st : State) (n c j k : Nat)
    (h : c ≠ ch ∨ NO_OF_SOS_STAGES ≤ j ∨ 2 ≤ k) :
    (smplLoopBody ch st n).sosHistBuf c j k = st.sosHistBuf c j k := by
  have h2 : c ≠ ch ∨ j ∉ List.range NO_OF_SOS_STAGES ∨ 2 ≤ k := by
    rcases h with h | h | h
    · exact Or.inl h
    · exact Or.inr (Or.inl (fun e => absurd (List.mem_range.mp e) (by omega)))
    · exact Or.inr (Or.inr h)
  exact sosLoop_hist_other ch (List.range NO_OF_SOS_STAGES) (st, st.inputBuf ch n) c j k h2

theorem smplLoopBody_cascade (ch : Nat) (st : State) (n : Nat) :
    ((smplLoopBody ch st n).outputBuf ch n, chanHists (smplLoopBody ch st n) ch)
      = cascade ((chanCoeffs st ch).zip (chanHists st ch)) (st.inputBuf ch n) := by
  have e := sosLoop_cascade ch (List.range NO_OF_SOS_STAGES) (List.nodup_range _) st
    (st.inputBuf ch n)
  have hz : (chanCoeffs st ch).zip (chanHists st ch)
      = (List.range NO_OF_SOS_STAGES).map fun i => (coeffsOf st ch i, histOf st ch i) := by
    simp only [chanCoeffs, chanHists, List.zip_map']
  rw [hz, ← e]
  refine Prod.ext ?_ ?_
  · simp only [smplLoopBody]
    rw [setAt_same, setAt_same]
  · rfl

theorem smplLoop_frame (ch : Nat) (l : List Nat) (st : State) :
    (l.foldl (smplLoopBody ch) st).audioInput = st.audioInput ∧
    (l.foldl (smplLoopBody ch) st).audioOutput = st.audioOutput ∧
    (l.foldl (smplLoopBody ch) st).inputBuf = st.inputBuf ∧
    (l.foldl (smplLoopBody ch) st).sosCoeffBuff = st.sosCoeffBuff := by
  induction l generalizing st with
  | nil => simp
  | cons n t ih =>
    obtain ⟨h1, h2, h3, h4⟩ := ih (smplLoopBody ch st n)
    obtain ⟨g1, g2, g3, g4⟩ := smplLoopBody_frame ch st n
    simp only [List.foldl_cons]
    exact ⟨h1.trans g1, h2.trans g2, h3.trans g3, h4.trans g4⟩

theorem smplLoop_out_other (ch : Nat) (l : List Nat) (st : State) (c m : Nat)
    (h : c ≠ ch ∨ m ∉ l) :
    (l.foldl (smplLoopBody ch) st).outputBuf c m = st.outputBuf c m := by
  induction l generalizing st with
  | nil => simp
  | cons n t ih =>
    simp only [List.foldl_cons]
    rw [ih (smplLoopBody ch st n)]
    · apply smplLoopBody_out_other
      rcases h with h | h
      · exact Or.inl h
      · exact Or.inr (fun e => h (by simp [e]))
    · rcases h with h | h
      · exact Or.inl h
      · exact Or.inr (fun e => h (List.mem_cons_of_mem _ e))

theorem smplLoop_hist_other (ch : Nat) (l : List Nat) (st : State) (c j k : Nat)
    (h : c ≠ ch ∨ NO_OF_SOS_STAGES ≤ j ∨ 2 ≤ k) :
    (l.foldl (smplLoopBody ch) st).sosHistBuf c j k = st.sosHistBuf c j k := by
  induction l generalizing st with
  | nil => simp
  | cons n t ih =>
    simp only [List.foldl_cons]
    rw [ih (smplLoopBody ch st n), smplLoopBody_hist_other ch st n c j k h]

theorem smplLoop_runChannel (ch : Nat) (l : List Nat) (hl : l.Nodup) (st : State) :
    (l.map ((l.foldl (smplLoopBody ch) st).outputBuf ch),
        chanHists (l.foldl (smplLoopBody ch) st) ch)
      = runChannel (chanCoeffs st ch) (chanHists st ch) (l.map (st.inputBuf ch)) := by
  induction l generalizing st with
  | nil => simp [runChannel]
  | cons n t ih =>
    obtain ⟨hn, ht⟩ := List.nodup_cons.mp hl
    have e := ih ht (smplLoopBody ch st n)
    obtain ⟨_, _, g3, g4⟩ := smplLoopBody_frame ch st n
    have c1 := congrArg Prod.fst (smplLoopBody_cascade ch st n)
    have c2 := congrArg Prod.snd (smplLoopBody_cascade ch st n)
    simp only at c1 c2
    rw [chanCoeffs_congr st (smplLoopBody ch st n) ch ch (congrFun g4 ch), c2, g3] at e
    have e1 := congrArg Prod.fst e
    have e2 := congrArg Prod.snd e
    simp only at e1 e2
    simp only [List.foldl_cons, List.map_cons, runChannel]
    rw [← e1, ← e2, ← c1, smplLoop_out_other ch t _ ch n (Or.inr hn)]

/-! ## The channel loop of the driver -/

theorem chLoopBody_frame (st : State) (ch : Nat) :
    (chLoopBody st ch).audioInput = st.audioInput ∧
    (chLoopBody st ch).audioOutput = st.audioOutput ∧
    (chLoopBody st ch).inputBuf = st.inputBuf ∧
    (chLoopBody st ch).sosCoeffBuff = st.sosCoeffBuff :=
  smplLoop_frame ch (List.range FRAME_LENGTH) st

theorem chLoopBody_other (st : State) (ch c : Nat) (h : c ≠ ch) :
    (chLoopBody st ch).outputBuf c = st.outputBuf c ∧
    (chLoopBody st ch).sosHistBuf c = st.sosHistBuf c := by
  refine ⟨funext fun m => ?_, funext fun j => funext fun k => ?_⟩
  · exact smplLoop_out_other ch (List.range FRAME_LENGTH) st c m (Or.inl h)
  · exact smplLoop_hist_other ch (List.range FRAME_LENGTH) st c j k (Or.inl h)

theorem chLoopBody_runChannel (st : State) (ch : Nat) :
    (chanOutput (chLoopBody st ch) ch, chanHists (chLoopBody st ch) ch)
      = runChannel (chanCoeffs st ch) (chanHists st ch) (chanInput st ch) :=
  smplLoop_runChannel ch (List.range FRAME_LENGTH) (List.nodup_range _) st

theorem chLoop_frame (l : List Nat) (st : State) :
    (l.foldl chLoopBody st).audioInput = st.audioInput ∧
    (l.foldl chLoopBody st).audioOutput = st.audioOutput ∧
    (l.foldl chLoopBody st).inputBuf = st.inputBuf ∧
    (l.foldl chLoopBody st).sosCoeffBuff = st.sosCoeffBuff := by
  induction l generalizing st with
  | nil => simp
  | cons c t ih =>
    obtain ⟨h1, h2, h3, h4⟩ := ih (chLoopBody st c)
    obtain ⟨g1, g2, g3, g4⟩ := chLoopBody_frame st c
    simp only [List.foldl_cons]
    exact ⟨h1.trans g1, h2.trans g2, h3.trans g3, h4.trans g4⟩

theorem chLoop_other (l : List Nat) (st : State) (c : Nat) (h : c ∉ l) :
    (l.foldl chLoopBody st).outputBuf c = st.outputBuf c ∧
    (l.foldl chLoopBody st).sosHistBuf c = st.sosHistBuf c := by
  induction l generalizing st with
  | nil => simp
  | cons d t ih =>
    have hd : c ≠ d := fun e => h (by simp [e])
    have ht : c ∉ t := fun e => h (List.mem_cons_of_mem _ e)
    obtain ⟨h1, h2⟩ := ih (chLoopBody st d) ht
    obtain ⟨g1, g2⟩ := chLoopBody_other st d c hd
    simp only [List.foldl_cons]
    exact ⟨h1.trans g1, h2.trans g2⟩

theorem chLoop_runChannel (l : List Nat) (hl : l.Nodup) (st : State) (ch : Nat) (h : ch ∈ l) :
    (chanOutput (l.foldl chLoopBody st) ch, chanHists (l.foldl chLoopBody st) ch)
      = runChannel (chanCoeffs st ch) (chanHists st ch) (chanInput st ch) := by
  induction l generalizing st with
  | nil => simp at h
  | cons d t ih =>
    obtain ⟨hd, ht⟩ := List.nodup_cons.mp hl
    simp only [List.foldl_cons]
    by_cases hc : ch = d
    · subst hc
      obtain ⟨h1, h2⟩ := chLoop_other t (chLoopBody st ch) ch hd
      rw [chanOutput_congr _ _ ch ch h1, chanHists_congr _ _ ch ch h2]
      exact chLoopBody_runChannel st ch
    · have hmem : ch ∈ t := by
        rcases List.mem_cons.mp h with e | e
        · exact absurd e hc
        · exact e
      obtain ⟨_, _, g3, g4⟩ := chLoopBody_frame st d
      obtain ⟨_, g2⟩ := chLoopBody_other st d ch hc
      rw [ih ht (chLoopBody st d) hmem,
        chanCoeffs_congr st (chLoopBody st d) ch ch (congrFun g4 ch),
        chanHists_congr st (chLoopBody st d) ch ch g2,
        chanInput_congr st (chLoopBody st d) ch ch (congrFun g3 ch)]

/-- The driver leaves `audioInput`, `audioOutput`, `inputBuf` and `sosCoeffBuff` alone. -/
theorem driver_frame (st : State) :
    (iirHWAcclDriver st).audioInput = st.audioInput ∧
    (iirHWAcclDriver st).audioOutput = st.audioOutput ∧
    (iirHWAcclDriver st).inputBuf = st.inputBuf ∧
    (iirHWAcclDriver st).sosCoeffBuff = st.sosCoeffBuff :=
  chLoop_frame (List.range NO_OF_CHANNELS) st

/-- The effect of the driver on one channel is the sample-by-sample run of that
channel alone. -/
theorem driver_runChannel (st : State) (ch : Nat) (h : ch < NO_OF_CHANNELS) :
    (chanOutput (iirHWAcclDriver st) ch, chanHists (iirHWAcclDriver st) ch)
      = runChannel (chanCoeffs st ch) (chanHists st ch) (chanInput st ch) :=
  chLoop_runChannel (List.range NO_OF_CHANNELS) (List.nodup_range _) st ch (List.mem_range.mpr h)

/-! ## The reference run of a channel -/

theorem runChannel_length (cs : List SosCoeffs) (hs : List SosHist) (xs : List Int) :
    (runChannel cs hs xs).1.length = xs.length := by
  induction xs generalizing hs with
  | nil => simp [runChannel]
  | cons x t ih => simp [runChannel, ih]

theorem runChannel_append (cs : List SosCoeffs) (hs : List SosHist) (xs ys : List Int) :
    runChannel cs hs (xs ++ ys)
      = ((runChannel cs hs xs).1 ++ (runChannel cs (runChannel cs hs xs).2 ys).1,
          (runChannel cs (runChannel cs hs xs).2 ys).2) := by
  induction xs generalizing hs with
  | nil => simp [runChannel]
  | cons x t ih => simp [runChannel, ih]

theorem runChannel_getD (cs : List SosCoeffs) (hs : List SosHist) (xs : List Int) (n : Nat)
    (hn : n < xs.length) :
    (runChannel cs hs xs).1.getD n 0
      = (cascade (cs.zip (runChannel cs hs (xs.take n)).2) (xs.getD n 0)).1 := by
  induction xs generalizing hs n with
  | nil => simp at hn
  | cons x t ih =>
    cases n with
    | zero => simp [runChannel]
    | succ m =>
      have hm : m < t.length := by simpa using hn
      simpa [runChannel] using ih (cascade (cs.zip hs) x).2 m hm

theorem map_range_getD {α : Type} (f : Nat → α) (d : α) (N n : Nat) (h : n < N) :
    ((List.range N).map f).getD n d = f n := by
  simp [List.getD_eq_getElem?_getD, List.getElem?_range h]

theorem cascade_zero (l : List (SosCoeffs × SosHist)) (hl : ∀ p ∈ l, p.2 = (0, 0)) :
    cascade l 0 = (0, l.map Prod.snd) := by
  induction l with
  | nil => simp [cascade_nil]
  | cons p t ih =>
    obtain ⟨c, h⟩ := p
    have hh : h = (0, 0) := hl (c, h) (List.mem_cons_self _ _)
    subst hh
    rw [cascade_cons, stageEval_zero, ih (fun q hq => hl q (List.mem_cons_of_mem _ hq))]
    simp

theorem runChannel_zero (cs : List SosCoeffs) (hs : List SosHist) (xs : List Int)
    (hlen : hs.length ≤ cs.length) (hh : ∀ h ∈ hs, h = (0, 0)) (hx : ∀ x ∈ xs, x = 0) :
    runChannel cs hs xs = (xs, hs) := by
  induction xs with
  | nil => simp [runChannel]
  | cons x t ih =>
    have hx0 : x = 0 := hx x (List.mem_cons_self _ _)
    subst hx0
    have hc : cascade (cs.zip hs) 0 = (0, hs) := by
      rw [cascade_zero, List.map_snd_zip _ _ hlen]
      intro p hp
      exact hh p.2 (List.of_mem_zip hp).2
    simp only [runChannel, hc, ih (fun y hy => hx y (List.mem_cons_of_mem _ hy))]

theorem chanCoeffs_length (st : State) (ch : Nat) :
    (chanCoeffs st ch).length = NO_OF_SOS_STAGES := by
  simp [chanCoeffs]

theorem chanHists_length (st : State) (ch : Nat) :
    (chanHists st ch).length = NO_OF_SOS_STAGES := by
  simp [chanHists]

theorem chanInput_length (st : State) (ch : Nat) : (chanInput st ch).length = FRAME_LENGTH := by
  simp [chanInput]

theorem withInput_chanCoeffs (st : State) (f : Nat → Nat → Int) (ch : Nat) :
    chanCoeffs (withInput st f) ch = chanCoeffs st ch := rfl

theorem withInput_chanHists (st : State) (f : Nat → Nat → Int) (ch : Nat) :
    chanHists (withInput st f) ch = chanHists st ch := rfl

theorem withInput_chanInput (st : State) (f : Nat → Nat → Int) (ch : Nat) :
    chanInput (withInput st f) ch = (List.range FRAME_LENGTH).map (f ch) := rfl

theorem driver_chanCoeffs (st : State) (ch : Nat) :
    chanCoeffs (iirHWAcclDriver st) ch = chanCoeffs st ch :=
  chanCoeffs_congr st (iirHWAcclDriver st) ch ch (congrFun (driver_frame st).2.2.2 ch)

theorem runFrames_cons (st : State) (f : Nat → Nat → Int) (fs : List (Nat → Nat → Int)) :
    runFrames st (f :: fs) = runFrames (iirHWAcclDriver (withInput st f)) fs := by
  simp only [runFrames, List.foldl_cons]

/-- Two successive invocations on one channel are one run over the two frames. -/
theorem driver_two_frames (st : State) (f1 f2 : Nat → Nat → Int) (ch : Nat)
    (h : ch < NO_OF_CHANNELS) :
    (chanOutput (iirHWAcclDriver (withInput st f1)) ch
          ++ chanOutput (iirHWAcclDriver (withInput (iirHWAcclDriver (withInput st f1)) f2)) ch,
        chanHists (iirHWAcclDriver (withInput (iirHWAcclDriver (withInput st f1)) f2)) ch)
      = runChannel (chanCoeffs st ch) (chanHists st ch)
          ((List.range FRAME_LENGTH).map (f1 ch) ++ (List.range FRAME_LENGTH).map (f2 ch)) := by
  have r1 := driver_runChannel (withInput st f1) ch h
  have r2 := driver_runChannel (withInput (iirHWAcclDriver (withInput st f1)) f2) ch h
  rw [withInput_chanCoeffs, withInput_chanHists, withInput_chanInput] at r1 r2
  rw [driver_chanCoeffs, withInput_chanCoeffs] at r2
  have a1 := congrArg Prod.fst r1
  have a2 := congrArg Prod.snd r1
  have b1 := congrArg Prod.fst r2
  have b2 := congrArg Prod.snd r2
  simp only at a1 a2 b1 b2
  rw [runChannel_append, ← a2, ← a1, ← b1, ← b2]

/-! ## Values produced by the reference run are 32-bit values -/

theorem cascade_hists_isInt32 (l : List (SosCoeffs × SosHist)) (x : Int) :
    ∀ h ∈ (cascade l x).2, isInt32 h.1 ∧ isInt32 h.2 := by
  induction l generalizing x with
  | nil => simp [cascade_nil]
  | cons p t ih =>
    obtain ⟨c, h0⟩ := p
    rw [cascade_cons]
    intro h hm
    rcases List.mem_cons.mp hm with e | hm
    · rw [e]; exact ⟨wrap32_isInt32 _, wrap32_isInt32 _⟩
    · exact ih _ h hm

theorem cascade_out_isInt32 (l : List (SosCoeffs × SosHist)) (x : Int)
    (hl : isInt32 x ∨ l ≠ []) : isInt32 (cascade l x).1 := by
  induction l generalizing x with
  | nil =>
    rcases hl with hl | hl
    · simpa [cascade_nil] using hl
    · exact absurd rfl hl
  | cons p t ih =>
    obtain ⟨c, h0⟩ := p
    rw [cascade_cons]
    exact ih _ (Or.inl (stageEval_out_isInt32 c x h0))

theorem zip_ne_nil (cs : List SosCoeffs) (hs : List SosHist) (hpos : cs ≠ [])
    (hlen : hs.length = cs.length) : cs.zip hs ≠ [] := by
  cases cs with
  | nil => exact absurd rfl hpos
  | cons c ct =>
    cases hs with
    | nil => simp at hlen
    | cons h ht => simp

theorem cascade_zip_length (cs : List SosCoeffs) (hs : List SosHist) (x : Int)
    (hlen : hs.length = cs.length) : (cascade (cs.zip hs) x).2.length = cs.length := by
  rw [cascade_length, List.length_zip, hlen, Nat.min_self]

theorem runChannel_hists_length (cs : List SosCoeffs) (hs : List SosHist) (xs : List Int)
    (hlen : hs.length = cs.length) : (runChannel cs hs xs).2.length = cs.length := by
  induction xs generalizing hs with
  | nil => simpa [runChannel] using hlen
  | cons x t ih =>
    simp only [runChannel]
    exact ih _ (cascade_zip_length cs hs x hlen)

theorem runChannel_hists_isInt32 (cs : List SosCoeffs) (hs : List SosHist) (xs : List Int)
    (hx : (∀ h ∈ hs, isInt32 h.1 ∧ isInt32 h.2) ∨ xs ≠ []) :
    ∀ h ∈ (runChannel cs hs xs).2, isInt32 h.1 ∧ isInt32 h.2 := by
  induction xs generalizing hs with
  | nil =>
    rcases hx with hx | hx
    · simpa [runChannel] using hx
    · exact absurd rfl hx
  | cons x t ih =>
    simp only [runChannel]
    exact ih _ (Or.inl (cascade_hists_isInt32 _ x))

/-! ## Superposition of the reference run -/

theorem stageEval_add (c : SosCoeffs) (x x' : Int) (h h' : SosHist) :
    stageEval c (add32 x x') (addHist h h')
      = (add32 (stageEval c x h).1 (stageEval c x' h').1,
          addHist (stageEval c x h).2 (stageEval c x' h').2) := by
  have hy : wrap32 (c.b0 * wrap32 (x + x') + wrap32 (h.1 + h'.1))
      = wrap32 (wrap32 (c.b0 * x + h.1) + wrap32 (c.b0 * x' + h'.1)) := by
    apply wrap32_eq_of_modEq
    have l := ((Int.ModEq.refl c.b0).mul (wrap32_modEq (x + x'))).add (wrap32_modEq (h.1 + h'.1))
    have r := (wrap32_modEq (c.b0 * x + h.1)).add (wrap32_modEq (c.b0 * x' + h'.1))
    have e : c.b0 * (x + x') + (h.1 + h'.1) = c.b0 * x + h.1 + (c.b0 * x' + h'.1) := by ring
    rw [e] at l
    exact l.trans r.symm
  have hY := wrap32_modEq (wrap32 (c.b0 * x + h.1) + wrap32 (c.b0 * x' + h'.1))
  simp only [stageEval, addHist, add32]
  refine Prod.ext hy (Prod.ext ?_ ?_)
  · simp only [hy]
    apply wrap32_eq_of_modEq
    have l := ((((Int.ModEq.refl c.b1).mul (wrap32_modEq (x + x'))).sub
      ((Int.ModEq.refl c.a1).mul hY))).add (wrap32_modEq (h.2 + h'.2))
    have r := (wrap32_modEq (c.b1 * x - c.a1 * wrap32 (c.b0 * x + h.1) + h.2)).add
      (wrap32_modEq (c.b1 * x' - c.a1 * wrap32 (c.b0 * x' + h'.1) + h'.2))
    have e : c.b1 * (x + x') - c.a1 * (wrap32 (c.b0 * x + h.1) + wrap32 (c.b0 * x' + h'.1))
          + (h.2 + h'.2)
        = c.b1 * x - c.a1 * wrap32 (c.b0 * x + h.1) + h.2
          + (c.b1 * x' - c.a1 * wrap32 (c.b0 * x' + h'.1) + h'.2) := by ring
    rw [e] at l
    exact l.trans r.symm
  · simp only [hy]
    apply wrap32_eq_of_modEq
    have l := ((Int.ModEq.refl c.b2).mul (wrap32_modEq (x + x'))).sub
      ((Int.ModEq.refl c.a2).mul hY)
    have r := (wrap32_modEq (c.b2 * x - c.a2 * wrap32 (c.b0 * x + h.1))).add
      (wrap32_modEq (c.b2 * x' - c.a2 * wrap32 (c.b0 * x' + h'.1)))
    have e : c.b2 * (x + x') - c.a2 * (wrap32 (c.b0 * x + h.1) + wrap32 (c.b0 * x' + h'.1))
        = c.b2 * x - c.a2 * wrap32 (c.b0 * x + h.1)
          + (c.b2 * x' - c.a2 * wrap32 (c.b0 * x' + h'.1)) := by ring
    rw [e] at l
    exact l.trans r.symm

theorem cascade_add (cs : List SosCoeffs) (hs hs' : List SosHist)
    (hlen : hs.length = hs'.length) (x x' : Int) :
    cascade (cs.zip (List.zipWith addHist hs hs')) (add32 x x')
      = (add32 (cascade (cs.zip hs) x).1 (cascade (cs.zip hs') x').1,
          List.zipWith addHist (cascade (cs.zip hs) x).2 (cascade (cs.zip hs') x').2) := by
  induction cs generalizing hs hs' x x' with
  | nil => simp [cascade_nil]
  | cons c ct ih =>
    cases hs with
    | nil =>
      cases hs' with
      | nil => simp [cascade_nil]
      | cons h' ht' => simp at hlen
    | cons h ht =>
      cases hs' with
      | nil => simp at hlen
      | cons h' ht' =>
        have hl : ht.length = ht'.length := by simpa using hlen
        simp only [List.zipWith_cons_cons, List.zip_cons_cons, cascade_cons, stageEval_add]
        rw [ih ht ht' hl]

theorem runChannel_add (cs : List SosCoeffs) (hs hs' : List SosHist)
    (hlen : hs.length = hs'.length) (xs xs' : List Int) (hx : xs.length = xs'.length) :
    runChannel cs (List.zipWith addHist hs hs') (List.zipWith add32 xs xs')
      = (List.zipWith add32 (runChannel cs hs xs).1 (runChannel cs hs' xs').1,
          List.zipWith addHist (runChannel cs hs xs).2 (runChannel cs hs' xs').2) := by
  induction xs generalizing xs' hs hs' with
  | nil =>
    cases xs' with
    | nil => simp [runChannel]
    | cons x' t' => simp at hx
  | cons x t ih =>
    cases xs' with
    | nil => simp at hx
    | cons x' t' =>
      have hl : t.length = t'.length := by simpa using hx
      have hc : (cascade (cs.zip hs) x).2.length = (cascade (cs.zip hs') x').2.length := by
        rw [cascade_length, cascade_length, List.length_zip, List.length_zip, hlen]
      simp only [List.zipWith_cons_cons, runChannel, cascade_add cs hs hs' hlen]
      rw [ih _ _ hc t' hl]

theorem State_ext (a b : State) (h1 : a.audioInput = b.audioInput)
    (h2 : a.audioOutput = b.audioOutput) (h3 : a.inputBuf = b.inputBuf)
    (h4 : a.outputBuf = b.outputBuf) (h5 : a.sosCoeffBuff = b.sosCoeffBuff)
    (h6 : a.sosHistBuf = b.sosHistBuf) : a = b := by
  cases a
  cases b
  simp only at h1 h2 h3 h4 h5 h6
  subst h1 h2 h3 h4 h5 h6
  rfl

theorem chLoop_out_range (l : List Nat) (st : State) (c m : Nat) (h : FRAME_LENGTH ≤ m) :
    (l.foldl chLoopBody st).outputBuf c m = st.outputBuf c m := by
  induction l generalizing st with
  | nil => simp
  | cons d t ih =>
    simp only [List.foldl_cons]
    rw [ih (chLoopBody st d)]
    exact smplLoop_out_other d (List.range FRAME_LENGTH) st c m
      (Or.inr (fun e => absurd (List.mem_range.mp e) (by omega)))

theorem chLoop_hist_range (l : List Nat) (st : State) (c j k : Nat)
    (h : NO_OF_SOS_STAGES ≤ j ∨ 2 ≤ k) :
    (l.foldl chLoopBody st).sosHistBuf c j k = st.sosHistBuf c j k := by
  induction l generalizing st with
  | nil => simp
  | cons d t ih =>
    simp only [List.foldl_cons]
    rw [ih (chLoopBody st d)]
    exact smplLoop_hist_other d (List.range FRAME_LENGTH) st c j k (Or.inr h)

theorem chLoop_eq_of_mem (l1 l2 : List Nat) (h1 : l1.Nodup) (h2 : l2.Nodup)
    (hm : ∀ c, c ∈ l1 ↔ c ∈ l2) (st : State) :
    l1.foldl chLoopBody st = l2.foldl chLoopBody st := by
  obtain ⟨a1, a2, a3, a4⟩ := chLoop_frame l1 st
  obtain ⟨b1, b2, b3, b4⟩ := chLoop_frame l2 st
  refine State_ext _ _ (a1.trans b1.symm) (a2.trans b2.symm) (a3.trans b3.symm) ?_
    (a4.trans b4.symm) ?_
  · funext c m
    by_cases hc : c ∈ l1
    · rcases Nat.lt_or_ge m FRAME_LENGTH with hlt | hge
      · have e1 := congrArg Prod.fst (chLoop_runChannel l1 h1 st c hc)
        have e2 := congrArg Prod.fst (chLoop_runChannel l2 h2 st c ((hm c).mp hc))
        simp only at e1 e2
        rw [← e2] at e1
        exact List.map_inj_left.mp e1 m (List.mem_range.mpr hlt)
      · rw [chLoop_out_range l1 st c m hge, chLoop_out_range l2 st c m hge]
    · have hc2 : c ∉ l2 := fun e => hc ((hm c).mpr e)
      rw [(chLoop_other l1 st c hc).1, (chLoop_other l2 st c hc2).1]
  · funext c j k
    by_cases hc : c ∈ l1
    · by_cases hin : j < NO_OF_SOS_STAGES ∧ k < 2
      · have e1 := congrArg Prod.snd (chLoop_runChannel l1 h1 st c hc)
        have e2 := congrArg Prod.snd (chLoop_runChannel l2 h2 st c ((hm c).mp hc))
        simp only at e1 e2
        rw [← e2] at e1
        have e := List.map_inj_left.mp e1 j (List.mem_range.mpr hin.1)
        have e0 := congrArg Prod.fst e
        have e1 := congrArg Prod.snd e
        simp only [histOf] at e0 e1
        have hk := hin.2
        interval_cases k
        · exact e0
        · exact e1
      · have hr : NO_OF_SOS_STAGES ≤ j ∨ 2 ≤ k := by
          by_cases hj : j < NO_OF_SOS_STAGES
          · right
            by_contra hk
            exact hin ⟨hj, by omega⟩
          · left
            omega
        rw [chLoop_hist_range l1 st c j k hr, chLoop_hist_range l2 st c j k hr]
    · have hc2 : c ∉ l2 := fun e => hc ((hm c).mpr e)
      rw [(chLoop_other l1 st c hc).2, (chLoop_other l2 st c hc2).2]

/-! ## One stage run over a sequence -/

theorem histAfter_cons (c h : Nat → Int) (x : Int) (xs : List Int) :
    histAfter c h (x :: xs) = histAfter c (iirSoS x c h).2 xs := by
  simp only [histAfter, List.foldl_cons]

theorem histAfter_take_succ (c h : Nat → Int) (xs : List Int) (n : Nat) (hn : n < xs.length) :
    histAfter c h (xs.take (n + 1))
      = (iirSoS (xs.getD n 0) c (histAfter c h (xs.take n))).2 := by
  rw [List.take_succ, List.getElem?_eq_getElem hn, List.getD_eq_getElem xs 0 hn]
  simp only [histAfter, List.foldl_append, Option.toList, List.foldl_cons, List.foldl_nil]

theorem runSoS_out_getD (c h : Nat → Int) (xs : List Int) (n : Nat) (hn : n < xs.length) :
    (runSoS c h xs).1.getD n 0
      = (iirSoS (xs.getD n 0) c (histAfter c h (xs.take n))).1 := by
  induction xs generalizing h n with
  | nil => simp at hn
  | cons x t ih =>
    cases n with
    | zero => simp [runSoS, histAfter]
    | succ m =>
      have hm : m < t.length := by simpa using hn
      simpa [runSoS, histAfter_cons] using ih (iirSoS x c h).2 m hm

theorem runSoS_length (c h : Nat → Int) (xs : List Int) :
    (runSoS c h xs).1.length = xs.length := by
  induction xs generalizing h with
  | nil => simp [runSoS]
  | cons x t ih => simp [runSoS, ih]

/-! ## The 32-bit run is the reduction of the run in unbounded integers -/

theorem wrapHist_wrapHist (h : SosHist) : wrapHist (wrapHist h) = wrapHist h := by
  simp only [wrapHist, wrap32_wrap32]

theorem map_wrap32_of_isInt32 (l : List Int) (h : ∀ y ∈ l, isInt32 y) : l.map wrap32 = l := by
  induction l with
  | nil => rfl
  | cons a t ih =>
    rw [List.map_cons, wrap32_of_isInt32 (h a (List.mem_cons_self _ _)),
      ih (fun y hy => h y (List.mem_cons_of_mem _ hy))]

theorem map_wrapHist_of_isInt32 (l : List SosHist) (h : ∀ p ∈ l, isInt32 p.1 ∧ isInt32 p.2) :
    l.map wrapHist = l := by
  induction l with
  | nil => rfl
  | cons a t ih =>
    have ha := h a (List.mem_cons_self _ _)
    rw [List.map_cons, ih (fun y hy => h y (List.mem_cons_of_mem _ hy))]
    simp only [wrapHist, wrap32_of_isInt32 ha.1, wrap32_of_isInt32 ha.2]

theorem stageEval_wrap (c : SosCoeffs) (x x' : Int) (h h' : SosHist)
    (hx : wrap32 x = wrap32 x') (hh : wrapHist h = wrapHist h') :
    stageEval c x h = (wrap32 (stageEvalZ c x' h').1, wrapHist (stageEvalZ c x' h').2) := by
  have mx := modEq_of_wrap32_eq hx
  have m1 : h.1 ≡ h'.1 [ZMOD 4294967296] := modEq_of_wrap32_eq (congrArg Prod.fst hh)
  have m2 : h.2 ≡ h'.2 [ZMOD 4294967296] := modEq_of_wrap32_eq (congrArg Prod.snd hh)
  have my : wrap32 (c.b0 * x + h.1) ≡ c.b0 * x' + h'.1 [ZMOD 4294967296] :=
    (wrap32_modEq _).trans (((Int.ModEq.refl c.b0).mul mx).add m1)
  simp only [stageEval, stageEvalZ, wrapHist]
  refine Prod.ext ?_ (Prod.ext ?_ ?_)
  · exact wrap32_eq_of_modEq (((Int.ModEq.refl c.b0).mul mx).add m1)
  · exact wrap32_eq_of_modEq
      ((((Int.ModEq.refl c.b1).mul mx).sub ((Int.ModEq.refl c.a1).mul my)).add m2)
  · exact wrap32_eq_of_modEq
      (((Int.ModEq.refl c.b2).mul mx).sub ((Int.ModEq.refl c.a2).mul my))

theorem cascade_wrap (cs : List SosCoeffs) (hs hs' : List SosHist) (x x' : Int)
    (hx : wrap32 x = wrap32 x') (hh : hs.map wrapHist = hs'.map wrapHist) :
    wrap32 (cascade (cs.zip hs) x).1 = wrap32 (cascadeZ (cs.zip hs') x').1 ∧
    (cascade (cs.zip hs) x).2 = (cascadeZ (cs.zip hs') x').2.map wrapHist := by
  induction cs generalizing hs hs' x x' with
  | nil => simpa [cascade_nil, cascadeZ] using hx
  | cons c ct ih =>
    cases hs with
    | nil =>
      cases hs' with
      | nil => simpa [cascade_nil, cascadeZ] using hx
      | cons h' ht' => simp at hh
    | cons h ht =>
      cases hs' with
      | nil => simp at hh
      | cons h' ht' =>
        simp only [List.map_cons, List.cons.injEq] at hh
        have hs1 := stageEval_wrap c x x' h h' hx hh.1
        have i := ih ht ht' (stageEval c x h).1 (stageEvalZ c x' h').1
          (by rw [hs1]; exact wrap32_wrap32 _) hh.2
        simp only [List.zip_cons_cons, cascade_cons, cascadeZ, List.map_cons]
        refine ⟨i.1, ?_⟩
        rw [i.2, hs1]
        rfl

theorem runChannel_wrap (cs : List SosCoeffs) (hs hs' : List SosHist) (xs : List Int)
    (hpos : cs ≠ []) (hlen : hs.length = cs.length)
    (hh : hs.map wrapHist = hs'.map wrapHist) :
    (runChannel cs hs xs).1 = (runChannelZ cs hs' xs).1.map wrap32 ∧
    (runChannel cs hs xs).2.map wrapHist = (runChannelZ cs hs' xs).2.map wrapHist := by
  induction xs generalizing hs hs' with
  | nil => exact ⟨rfl, hh⟩
  | cons x t ih =>
    obtain ⟨c1, c2⟩ := cascade_wrap cs hs hs' x x rfl hh
    have hr : isInt32 (cascade (cs.zip hs) x).1 :=
      cascade_out_isInt32 _ _ (Or.inr (zip_ne_nil cs hs hpos hlen))
    rw [wrap32_of_isInt32 hr] at c1
    have hh2 : (cascade (cs.zip hs) x).2.map wrapHist
        = (cascadeZ (cs.zip hs') x).2.map wrapHist := by
      rw [c2, List.map_map]
      apply List.map_congr_left
      intro p _
      exact wrapHist_wrapHist p
    obtain ⟨i1, i2⟩ := ih (cascade (cs.zip hs) x).2 (cascadeZ (cs.zip hs') x).2
      (cascade_zip_length cs hs x hlen) hh2
    simp only [runChannel, runChannelZ, List.map_cons]
    exact ⟨by rw [c1, i1], i2⟩

/-! ## The pass-through cascade -/

theorem stageEval_identity (x : Int) (hx : isInt32 x) :
    stageEval ⟨1, 0, 0, 0, 0⟩ x (0, 0) = (x, (0, 0)) := by
  simp [stageEval, wrap32_zero, wrap32_of_isInt32 hx]

theorem cascade_identity (l : List (SosCoeffs × SosHist))
    (hl : ∀ p ∈ l, p = (⟨1, 0, 0, 0, 0⟩, (0, 0))) (x : Int) (hx : isInt32 x) :
    cascade l x = (x, l.map Prod.snd) := by
  induction l with
  | nil => simp [cascade_nil]
  | cons p t ih =>
    have hp := hl p (List.mem_cons_self _ _)
    subst hp
    rw [cascade_cons, stageEval_identity x hx, ih (fun q hq => hl q (List.mem_cons_of_mem _ hq))]
    simp

theorem runChannel_identity (cs : List SosCoeffs) (hs : List SosHist) (xs : List Int)
    (hlen : hs.length ≤ cs.length) (hc : ∀ c ∈ cs, c = ⟨1, 0, 0, 0, 0⟩)
    (hh : ∀ h ∈ hs, h = (0, 0)) (hx : ∀ x ∈ xs, isInt32 x) :
    runChannel cs hs xs = (xs, hs) := by
  induction xs with
  | nil => simp [runChannel]
  | cons x t ih =>
    have hcas : cascade (cs.zip hs) x = (x, hs) := by
      rw [cascade_identity _ _ x (hx x (List.mem_cons_self _ _)), List.map_snd_zip _ _ hlen]
      intro p hp
      have h1 := hc p.1 (List.of_mem_zip hp).1
      have h2 := hh p.2 (List.of_mem_zip hp).2
      exact Prod.ext h1 h2
    simp only [runChannel, hcas, ih (fun y hy => hx y (List.mem_cons_of_mem _ hy))]

theorem driver_identity_channel (st : State) (ch : Nat) (h : ch < NO_OF_CHANNELS)
    (hc : ∀ i, i < NO_OF_SOS_STAGES →
      st.sosCoeffBuff ch i 0 = 1 ∧ st.sosCoeffBuff ch i 1 = 0 ∧ st.sosCoeffBuff ch i 2 = 0 ∧
      st.sosCoeffBuff ch i 3 = 0 ∧ st.sosCoeffBuff ch i 4 = 0)
    (hh : ∀ i, i < NO_OF_SOS_STAGES → st.sosHistBuf ch i 0 = 0 ∧ st.sosHistBuf ch i 1 = 0)
    (hx : ∀ n, n < FRAME_LENGTH → isInt32 (st.inputBuf ch n)) :
    (∀ n, n < FRAME_LENGTH → (iirHWAcclDriver st).outputBuf ch n = st.inputBuf ch n) ∧
    (∀ i, i < NO_OF_SOS_STAGES →
      (iirHWAcclDriver st).sosHistBuf ch i 0 = 0 ∧ (iirHWAcclDriver st).sosHistBuf ch i 1 = 0) := by
  have r := driver_runChannel st ch h
  have hc2 : ∀ c ∈ chanCoeffs st ch, c = ⟨1, 0, 0, 0, 0⟩ := by
    intro c hcm
    obtain ⟨i, hi, rfl⟩ := List.mem_map.mp hcm
    obtain ⟨c0, c1, c2, c3, c4⟩ := hc i (List.mem_range.mp hi)
    simp only [coeffsOf, c0, c1, c2, c3, c4]
  have hh2 : ∀ p ∈ chanHists st ch, p = (0, 0) := by
    intro p hp
    obtain ⟨i, hi, rfl⟩ := List.mem_map.mp hp
    have := hh i (List.mem_range.mp hi)
    simp only [histOf, this.1, this.2]
  have hx2 : ∀ x ∈ chanInput st ch, isInt32 x := by
    intro x hxm
    obtain ⟨n, hn, rfl⟩ := List.mem_map.mp hxm
    exact hx n (List.mem_range.mp hn)
  have hlen : (chanHists st ch).length ≤ (chanCoeffs st ch).length := by
    rw [chanHists_length, chanCoeffs_length]
  rw [runChannel_identity _ _ _ hlen hc2 hh2 hx2] at r
  have r1 := congrArg Prod.fst r
  have r2 := congrArg Prod.snd r
  simp only at r1 r2
  constructor
  · intro n hn
    exact List.map_inj_left.mp r1 n (List.mem_range.mpr hn)
  · intro i hi
    have e := List.map_inj_left.mp r2 i (List.mem_range.mpr hi)
    have e0 := congrArg Prod.fst e
    have e1 := congrArg Prod.snd e
    simp only [histOf] at e0 e1
    rw [e0, e1]
    exact hh i hi

/-! ## The frame loop of `main` -/

theorem copyLoop_frame (frame : Nat) (l : List Nat) (st : State) :
    (l.foldl (copyFrameIn frame) st).audioInput = st.audioInput ∧
    (l.foldl (copyFrameIn frame) st).audioOutput = st.audioOutput ∧
    (l.foldl (copyFrameIn frame) st).outputBuf = st.outputBuf ∧
    (l.foldl (copyFrameIn frame) st).sosCoeffBuff = st.sosCoeffBuff ∧
    (l.foldl (copyFrameIn frame) st).sosHistBuf = st.sosHistBuf := by
  induction l generalizing st with
  | nil => simp
  | cons d t ih =>
    obtain ⟨h1, h2, h3, h4, h5⟩ := ih (copyFrameIn frame st d)
    simp only [List.foldl_cons]
    exact ⟨h1, h2, h3, h4, h5⟩

theorem copyLoop_input_other (frame : Nat) (l : List Nat) (st : State) (ch : Nat)
    (h : ch ∉ l) : (l.foldl (copyFrameIn frame) st).inputBuf ch = st.inputBuf ch := by
  induction l generalizing st with
  | nil => simp
  | cons d t ih =>
    simp only [List.foldl_cons]
    rw [ih (copyFrameIn frame st d) (fun e => h (List.mem_cons_of_mem _ e))]
    exact setAt_other _ _ _ _ (fun e => h (by simp [e]))

theorem copyLoop_input (frame : Nat) (l : List Nat) (st : State) (ch n : Nat)
    (h : ch ∈ l) (hn : n < FRAME_LENGTH) :
    (l.foldl (copyFrameIn frame) st).inputBuf ch n = st.audioInput ch (frame + n) := by
  induction l generalizing st with
  | nil => simp at h
  | cons d t ih =>
    simp only [List.foldl_cons]
    by_cases ht : ch ∈ t
    · rw [ih (copyFrameIn frame st d) ht]
      rfl
    · have hd : ch = d := by
        rcases List.mem_cons.mp h with e | e
        · exact e
        · exact absurd e ht
      subst hd
      rw [copyLoop_input_other frame t _ ch ht]
      simp only [copyFrameIn]
      rw [setAt_same]
      simp [hn]

theorem frameLoopBody_audioOutput (st : State) (frame : Nat) :
    (frameLoopBody st frame).audioOutput = st.audioOutput := by
  unfold frameLoopBody
  rw [(driver_frame _).2.1, (copyLoop_frame frame _ st).2.1]

theorem forStep_step {σ : Type} (bound step : Nat) (body : σ → Nat → σ) (fuel i : Nat) (s : σ)
    (h : i < bound) :
    forStep bound step body (fuel + 1) i s = forStep bound step body fuel (i + step) (body s i) := by
  simp only [forStep, h, if_true]

theorem forStep_done {σ : Type} (bound step : Nat) (body : σ → Nat → σ) (fuel i : Nat) (s : σ)
    (h : ¬ i < bound) : forStep bound step body fuel i s = s := by
  cases fuel with
  | zero => rfl
  | succ k => simp only [forStep, h, if_false]

theorem forStep_audioOutput (fuel i : Nat) (st : State) :
    (forStep TOTAL_NO_OF_FRAMES FRAME_LENGTH frameLoopBody fuel i st).audioOutput
      = st.audioOutput := by
  induction fuel generalizing i st with
  | zero => rfl
  | succ k ih =>
    by_cases h : i < TOTAL_NO_OF_FRAMES
    · rw [forStep_step _ _ _ _ _ _ h, ih, frameLoopBody_audioOutput]
    · rw [forStep_done _ _ _ _ _ _ h]

/-! ## Two channels with the same data over successive invocations -/

theorem runFrames_nil (st : State) : runFrames st [] = st := by
  simp only [runFrames, List.foldl_nil]

theorem runFrames_symmetry (frames : List (Nat → Nat → Int)) (st : State) (A B : Nat)
    (hA : A < NO_OF_CHANNELS) (hB : B < NO_OF_CHANNELS)
    (hc : chanCoeffs st A = chanCoeffs st B) (hh : chanHists st A = chanHists st B)
    (hf : ∀ f ∈ frames, (List.range FRAME_LENGTH).map (f A) = (List.range FRAME_LENGTH).map (f B)) :
    outputsOfFrames A st frames = outputsOfFrames B st frames ∧
    chanHists (runFrames st frames) A = chanHists (runFrames st frames) B ∧
    (frames ≠ [] ∨ chanOutput st A = chanOutput st B →
      chanOutput (runFrames st frames) A = chanOutput (runFrames st frames) B) := by
  induction frames generalizing st with
  | nil =>
    refine ⟨rfl, hh, fun h => ?_⟩
    rcases h with h | h
    · exact absurd rfl h
    · exact h
  | cons f fs ih =>
    have rA := driver_runChannel (withInput st f) A hA
    have rB := driver_runChannel (withInput st f) B hB
    rw [withInput_chanCoeffs, withInput_chanHists, withInput_chanInput] at rA rB
    rw [hc, hh, hf f (List.mem_cons_self _ _), ← rB] at rA
    have o1 := congrArg Prod.fst rA
    have h1 := congrArg Prod.snd rA
    simp only at o1 h1
    have c1 : chanCoeffs (iirHWAcclDriver (withInput st f)) A
        = chanCoeffs (iirHWAcclDriver (withInput st f)) B := by
      rw [driver_chanCoeffs, driver_chanCoeffs, withInput_chanCoeffs, withInput_chanCoeffs, hc]
    obtain ⟨i1, i2, i3⟩ := ih (iirHWAcclDriver (withInput st f)) c1 h1
      (fun g hg => hf g (List.mem_cons_of_mem _ hg))
    rw [runFrames_cons]
    refine ⟨?_, i2, fun _ => i3 (Or.inr o1)⟩
    simp only [outputsOfFrames]
    rw [o1, i1]

/-- Claim C1. For every input sample, coefficient row and history row, `iirSoS`
returns `y = b0*x + s1` and leaves the history pair equal to
`(b1*x - a1*y + s2, b2*x - a2*y)`, with the old `s2` on the right-hand side and
every value reduced to 32 bits with wraparound. -/
theorem iirSoS_contract (x : Int) (c h : Nat → Int) :
    (iirSoS x c h).1 = wrap32 (c 0 * x + h 0) ∧
    (iirSoS x c h).2 0 = wrap32 (c 1 * x - c 3 * (iirSoS x c h).1 + h 1) ∧
    (iirSoS x c h).2 1 = wrap32 (c 2 * x - c 4 * (iirSoS x c h).1) :=
  ⟨iirSoS_out x c h, iirSoS_hist0 x c h, iirSoS_hist1 x c h⟩

/-- Claim C6. One stage with coefficients `[1,0,0,0,0]` and history `(0,0)`, run by
repeated `iirSoS` calls on any sequence of `int` samples, returns every sample
unchanged and has history `(0,0)` after every sample. -/
theorem iirSoS_identity_stage (xs : List Int) (hx : ∀ x ∈ xs, isInt32 x) :
    (runSoS identityCoeffs zeroHist xs).1 = xs ∧
    ∀ g ∈ (runSoS identityCoeffs zeroHist xs).2, g 0 = 0 ∧ g 1 = 0 := by
  have key : ∀ x, isInt32 x → iirSoS x identityCoeffs zeroHist = (x, zeroHist) := by
    intro x hx
    have e1 : (iirSoS x identityCoeffs zeroHist).1 = x := by
      rw [iirSoS_out]
      simpa [identityCoeffs, zeroHist, rowOf] using wrap32_of_isInt32 hx
    refine Prod.ext e1 (funext fun k => ?_)
    rcases Nat.lt_or_ge k 2 with hk | hk
    · interval_cases k
      · rw [iirSoS_hist0]; simp [identityCoeffs, zeroHist, rowOf, wrap32_zero]
      · rw [iirSoS_hist1]; simp [identityCoeffs, zeroHist, rowOf, wrap32_zero]
    · exact iirSoS_hist_other x _ _ k hk
  induction xs with
  | nil => simp [runSoS]
  | cons x xs ih =>
    have hx0 : isInt32 x := hx x (List.mem_cons_self _ _)
    have ih2 := ih (fun y hy => hx y (List.mem_cons_of_mem _ hy))
    simp only [runSoS, key x hx0]
    refine ⟨by rw [ih2.1], ?_⟩
    intro g hg
    rcases List.mem_cons.mp hg with rfl | hg
    · exact ⟨rfl, rfl⟩
    · exact ih2.2 g hg

theorem iirSoS_identity_stage_witness :
    (∀ x ∈ [7, -3, 2147483647], isInt32 x) ∧
    (runSoS identityCoeffs zeroHist [7, -3, 2147483647]).1 = [7, -3, 2147483647] ∧
    ∀ g ∈ (runSoS identityCoeffs zeroHist [7, -3, 2147483647]).2, g 0 = 0 ∧ g 1 = 0 :=
  ⟨by decide, iirSoS_identity_stage [7, -3, 2147483647] (by decide)⟩

/-- Claim C7. Worked example: the stage `[b0=2,b1=1,b2=1,a1=0,a2=0]` with history
`(0,0)` fed `[10, 5]` returns 20 leaving history `(10,10)`, then 20 leaving
history `(15,5)`. -/
theorem iirSoS_worked_example :
    (iirSoS 10 exampleCoeffs zeroHist).1 = 20 ∧
    (iirSoS 10 exampleCoeffs zeroHist).2 0 = 10 ∧
    (iirSoS 10 exampleCoeffs zeroHist).2 1 = 10 ∧
    (iirSoS 5 exampleCoeffs (iirSoS 10 exampleCoeffs zeroHist).2).1 = 20 ∧
    (iirSoS 5 exampleCoeffs (iirSoS 10 exampleCoeffs zeroHist).2).2 0 = 15 ∧
    (iirSoS 5 exampleCoeffs (iirSoS 10 exampleCoeffs zeroHist).2).2 1 = 5 ∧
    (runSoS exampleCoeffs zeroHist [10, 5]).1 = [20, 20] := by
  decide

/-- Claim C2. After `iirHWAcclDriver`, every channel `ch < 8` has exactly 32 output
samples; sample `n` is the output of the channel's 8-stage cascade on
`inputBuf[ch][n]` with the stage histories left by samples `0..n-1` of that channel,
taken in increasing index order; the final histories of the channel are those left
by samples `0..31` in that order. -/
theorem driver_frame_contract (st : State) (ch : Nat) (h : ch < NO_OF_CHANNELS) :
    chanOutput (iirHWAcclDriver st) ch
      = (runChannel (chanCoeffs st ch) (chanHists st ch) (chanInput st ch)).1 ∧
    (runChannel (chanCoeffs st ch) (chanHists st ch) (chanInput st ch)).1.length = 32 ∧
    (∀ n, n < FRAME_LENGTH →
      (iirHWAcclDriver st).outputBuf ch n
        = (cascade
            ((chanCoeffs st ch).zip
              (runChannel (chanCoeffs st ch) (chanHists st ch) ((chanInput st ch).take n)).2)
            (st.inputBuf ch n)).1) ∧
    chanHists (iirHWAcclDriver st) ch
      = (runChannel (chanCoeffs st ch) (chanHists st ch) (chanInput st ch)).2 := by
  have r := driver_runChannel st ch h
  have r1 := congrArg Prod.fst r
  have r2 := congrArg Prod.snd r
  simp only at r1 r2
  refine ⟨r1, ?_, ?_, r2⟩
  · rw [runChannel_length, chanInput_length]; rfl
  · intro n hn
    have hlen : n < (chanInput st ch).length := by rw [chanInput_length]; exact hn
    have e := runChannel_getD (chanCoeffs st ch) (chanHists st ch) (chanInput st ch) n hlen
    rw [← r1] at e
    have e1 : (chanOutput (iirHWAcclDriver st) ch).getD n 0
        = (iirHWAcclDriver st).outputBuf ch n := map_range_getD _ 0 _ n hn
    have e2 : (chanInput st ch).getD n 0 = st.inputBuf ch n := map_range_getD _ 0 _ n hn
    rw [e1, e2] at e
    exact e

theorem driver_frame_contract_witness :
    3 < NO_OF_CHANNELS ∧
    chanOutput (iirHWAcclDriver rampState) 3
      = (runChannel (chanCoeffs rampState 3) (chanHists rampState 3) (chanInput rampState 3)).1 ∧
    (runChannel (chanCoeffs rampState 3) (chanHists rampState 3)
      (chanInput rampState 3)).1.length = 32 ∧
    (∀ n, n < FRAME_LENGTH →
      (iirHWAcclDriver rampState).outputBuf 3 n
        = (cascade
            ((chanCoeffs rampState 3).zip
              (runChannel (chanCoeffs rampState 3) (chanHists rampState 3)
                ((chanInput rampState 3).take n)).2)
            (rampState.inputBuf 3 n)).1) ∧
    chanHists (iirHWAcclDriver rampState) 3
      = (runChannel (chanCoeffs rampState 3) (chanHists rampState 3)
          (chanInput rampState 3)).2 :=
  ⟨by decide, driver_frame_contract rampState 3 (by decide)⟩

/-- Claim C3. For every sample and channel, the inner loop of `iirHWAcclDriver`
applies the stage evaluator to stages 0,1,...,7 in that order, stage `i` on
`sosCoeffBuff[ch][i]` and `sosHistBuf[ch][i]`, each output feeding the next stage;
the value stored in `outputBuf` is the output of stage 7 and the histories left are
those of the left fold over the 8 ordered (coefficient, history) pairs. -/
theorem driver_sample_is_cascade (st : State) (ch n : Nat) :
    ((smplLoopBody ch st n).outputBuf ch n, chanHists (smplLoopBody ch st n) ch)
      = cascade
          [(coeffsOf st ch 0, histOf st ch 0), (coeffsOf st ch 1, histOf st ch 1),
            (coeffsOf st ch 2, histOf st ch 2), (coeffsOf st ch 3, histOf st ch 3),
            (coeffsOf st ch 4, histOf st ch 4), (coeffsOf st ch 5, histOf st ch 5),
            (coeffsOf st ch 6, histOf st ch 6), (coeffsOf st ch 7, histOf st ch 7)]
          (st.inputBuf ch n) ∧
    ∀ (x : Int) (i : Nat),
      ((sosLoopBody ch (st, x) i).2, histOf (sosLoopBody ch (st, x) i).1 ch i)
        = stageEval (coeffsOf st ch i) x (histOf st ch i) ∧
      ((sosLoopBody ch (st, x) i).2, histOf (sosLoopBody ch (st, x) i).1 ch i)
        = ((iirSoS x (st.sosCoeffBuff ch i) (st.sosHistBuf ch i)).1,
            ((iirSoS x (st.sosCoeffBuff ch i) (st.sosHistBuf ch i)).2 0,
              (iirSoS x (st.sosCoeffBuff ch i) (st.sosHistBuf ch i)).2 1)) := by
  refine ⟨smplLoopBody_cascade ch st n, fun x i => ?_⟩
  have e : ((sosLoopBody ch (st, x) i).2, histOf (sosLoopBody ch (st, x) i).1 ch i)
      = stageEval (coeffsOf st ch i) x (histOf st ch i) :=
    Prod.ext (sosLoopBody_out ch st x i) (sosLoopBody_hist ch st x i)
  refine ⟨e, ?_⟩
  rw [e, iirSoS_eq_stageEval]
  rfl

/-- Claim C4. Histories persist across frames: calling the driver on frame `f1` and
then on frame `f2` gives, for every channel, the same 64 output samples and the same
final histories as one pass of the channel's cascade over the 64 samples `f1 ++ f2`. -/
theorem driver_history_persists (st : State) (f1 f2 : Nat → Nat → Int) (ch : Nat)
    (h : ch < NO_OF_CHANNELS) :
    (chanOutput (iirHWAcclDriver (withInput st f1)) ch
          ++ chanOutput (iirHWAcclDriver (withInput (iirHWAcclDriver (withInput st f1)) f2)) ch,
        chanHists (iirHWAcclDriver (withInput (iirHWAcclDriver (withInput st f1)) f2)) ch)
      = runChannel (chanCoeffs st ch) (chanHists st ch)
          ((List.range FRAME_LENGTH).map (f1 ch) ++ (List.range FRAME_LENGTH).map (f2 ch)) ∧
    (runChannel (chanCoeffs st ch) (chanHists st ch)
      ((List.range FRAME_LENGTH).map (f1 ch) ++ (List.range FRAME_LENGTH).map (f2 ch))).1.length
      = 64 := by
  refine ⟨driver_two_frames st f1 f2 ch h, ?_⟩
  rw [runChannel_length]
  simp [FRAME_LENGTH]

theorem driver_history_persists_witness :
    2 < NO_OF_CHANNELS ∧
    ((chanOutput (iirHWAcclDriver (withInput rampState rampFrame)) 2
          ++ chanOutput (iirHWAcclDriver
              (withInput (iirHWAcclDriver (withInput rampState rampFrame)) constFrame)) 2,
        chanHists (iirHWAcclDriver
              (withInput (iirHWAcclDriver (withInput rampState rampFrame)) constFrame)) 2)
      = runChannel (chanCoeffs rampState 2) (chanHists rampState 2)
          ((List.range FRAME_LENGTH).map (rampFrame 2)
            ++ (List.range FRAME_LENGTH).map (constFrame 2)) ∧
    (runChannel (chanCoeffs rampState 2) (chanHists rampState 2)
      ((List.range FRAME_LENGTH).map (rampFrame 2)
        ++ (List.range FRAME_LENGTH).map (constFrame 2))).1.length = 64) :=
  ⟨by decide, driver_history_persists rampState rampFrame constFrame 2 (by decide)⟩

/-- Claim C5. Zero-input stability: whatever the 8 coefficient sets of a channel, if
its 8 stage histories are `(0,0)` and its input frame is all zeros, then after
`iirHWAcclDriver` its 32 output samples are zero and its 8 histories are `(0,0)`. -/
theorem driver_zero_input (st : State) (ch : Nat) (h : ch < NO_OF_CHANNELS)
    (hh : ∀ i, i < NO_OF_SOS_STAGES → st.sosHistBuf ch i 0 = 0 ∧ st.sosHistBuf ch i 1 = 0)
    (hx : ∀ n, n < FRAME_LENGTH → st.inputBuf ch n = 0) :
    (∀ n, n < FRAME_LENGTH → (iirHWAcclDriver st).outputBuf ch n = 0) ∧
    (∀ i, i < NO_OF_SOS_STAGES →
      (iirHWAcclDriver st).sosHistBuf ch i 0 = 0 ∧ (iirHWAcclDriver st).sosHistBuf ch i 1 = 0) := by
  have r := driver_runChannel st ch h
  have hh2 : ∀ p ∈ chanHists st ch, p = (0, 0) := by
    intro p hp
    obtain ⟨i, hi, rfl⟩ := List.mem_map.mp hp
    have := hh i (List.mem_range.mp hi)
    simp only [histOf, this.1, this.2]
  have hx2 : ∀ x ∈ chanInput st ch, x = 0 := by
    intro x hxm
    obtain ⟨n, hn, rfl⟩ := List.mem_map.mp hxm
    exact hx n (List.mem_range.mp hn)
  have hlen : (chanHists st ch).length ≤ (chanCoeffs st ch).length := by
    rw [chanHists_length, chanCoeffs_length]
  rw [runChannel_zero _ _ _ hlen hh2 hx2] at r
  have r1 := congrArg Prod.fst r
  have r2 := congrArg Prod.snd r
  simp only at r1 r2
  constructor
  · intro n hn
    have e := List.map_inj_left.mp r1 n (List.mem_range.mpr hn)
    rw [e]
    exact hx n hn
  · intro i hi
    have e := List.map_inj_left.mp r2 i (List.mem_range.mpr hi)
    have e0 := congrArg Prod.fst e
    have e1 := congrArg Prod.snd e
    simp only [histOf] at e0 e1
    rw [e0, e1]
    exact hh i hi

theorem driver_zero_input_witness :
    5 < NO_OF_CHANNELS ∧
    (∀ i, i < NO_OF_SOS_STAGES →
      (withInput rampState (fun _ _ => 0)).sosHistBuf 5 i 0 = 0 ∧
      (withInput rampState (fun _ _ => 0)).sosHistBuf 5 i 1 = 0) ∧
    (∀ n, n < FRAME_LENGTH → (withInput rampState (fun _ _ => 0)).inputBuf 5 n = 0) ∧
    (∀ n, n < FRAME_LENGTH →
      (iirHWAcclDriver (withInput rampState (fun _ _ => 0))).outputBuf 5 n = 0) ∧
    (∀ i, i < NO_OF_SOS_STAGES →
      (iirHWAcclDriver (withInput rampState (fun _ _ => 0))).sosHistBuf 5 i 0 = 0 ∧
      (iirHWAcclDriver (withInput rampState (fun _ _ => 0))).sosHistBuf 5 i 1 = 0) :=
  ⟨by decide, fun _ _ => ⟨rfl, rfl⟩, fun _ _ => rfl,
    driver_zero_input (withInput rampState (fun _ _ => 0)) 5 (by decide)
      (fun _ _ => ⟨rfl, rfl⟩) (fun _ _ => rfl)⟩

/-- Claim C8, counterexample. After one driver call on pass-through stages with the
constant 5 in the input frame of channel 0 and zeros in that of channel 1, the two
channels have identical coefficient sets and identical histories, and after `k = 0`
further invocations their output frames are `[5,5,...]` and `[0,0,...]`. -/
theorem channel_symmetry_counterexample :
    0 < NO_OF_CHANNELS ∧ 1 < NO_OF_CHANNELS ∧
    chanCoeffs (iirHWAcclDriver splitState) 0 = chanCoeffs (iirHWAcclDriver splitState) 1 ∧
    chanHists (iirHWAcclDriver splitState) 0 = chanHists (iirHWAcclDriver splitState) 1 ∧
    (∀ f ∈ ([] : List (Nat → Nat → Int)),
      (List.range FRAME_LENGTH).map (f 0) = (List.range FRAME_LENGTH).map (f 1)) ∧
    chanOutput (runFrames (iirHWAcclDriver splitState) []) 0 = List.replicate 32 5 ∧
    chanOutput (runFrames (iirHWAcclDriver splitState) []) 1 = List.replicate 32 0 ∧
    chanOutput (runFrames (iirHWAcclDriver splitState) []) 0
      ≠ chanOutput (runFrames (iirHWAcclDriver splitState) []) 1 := by
  have r0 := driver_runChannel splitState 0 (by decide)
  have r1 := driver_runChannel splitState 1 (by decide)
  have e0 : runChannel (chanCoeffs splitState 0) (chanHists splitState 0)
      (chanInput splitState 0) = (List.replicate 32 5, List.replicate 8 (0, 0)) := by decide
  have e1 : runChannel (chanCoeffs splitState 1) (chanHists splitState 1)
      (chanInput splitState 1) = (List.replicate 32 0, List.replicate 8 (0, 0)) := by decide
  rw [e0] at r0
  rw [e1] at r1
  have o0 := congrArg Prod.fst r0
  have h0 := congrArg Prod.snd r0
  have o1 := congrArg Prod.fst r1
  have h1 := congrArg Prod.snd r1
  simp only at o0 h0 o1 h1
  refine ⟨by decide, by decide, ?_, ?_, ?_, ?_, ?_, ?_⟩
  · rw [driver_chanCoeffs, driver_chanCoeffs]
    decide
  · rw [h0, h1]
  · intro f hf
    exact absurd hf (List.not_mem_nil _)
  · rw [runFrames_nil, o0]
  · rw [runFrames_nil, o1]
  · rw [runFrames_nil, o0, o1]
    decide

/-- Claim C8, amended. Channel symmetry: two channels with identical coefficient sets
and identical histories that receive identical input frames in every invocation have,
after any number `k >= 1` of `iirHWAcclDriver` invocations, identical output frames
and identical histories, and the output frames produced by every single invocation
are identical. -/
theorem channel_symmetry (f : Nat → Nat → Int) (fs : List (Nat → Nat → Int)) (st : State)
    (A B : Nat) (hA : A < NO_OF_CHANNELS) (hB : B < NO_OF_CHANNELS)
    (hc : chanCoeffs st A = chanCoeffs st B) (hh : chanHists st A = chanHists st B)
    (hf : ∀ g ∈ f :: fs,
      (List.range FRAME_LENGTH).map (g A) = (List.range FRAME_LENGTH).map (g B)) :
    chanOutput (runFrames st (f :: fs)) A = chanOutput (runFrames st (f :: fs)) B ∧
    chanHists (runFrames st (f :: fs)) A = chanHists (runFrames st (f :: fs)) B ∧
    outputsOfFrames A st (f :: fs) = outputsOfFrames B st (f :: fs) := by
  obtain ⟨i1, i2, i3⟩ := runFrames_symmetry (f :: fs) st A B hA hB hc hh hf
  exact ⟨i3 (Or.inl (List.cons_ne_nil f fs)), i2, i1⟩

theorem channel_symmetry_witness :
    0 < NO_OF_CHANNELS ∧ 1 < NO_OF_CHANNELS ∧
    chanCoeffs rampState 0 = chanCoeffs rampState 1 ∧
    chanHists rampState 0 = chanHists rampState 1 ∧
    (∀ g ∈ [rampFrame, constFrame],
      (List.range FRAME_LENGTH).map (g 0) = (List.range FRAME_LENGTH).map (g 1)) ∧
    (chanOutput (runFrames rampState [rampFrame, constFrame]) 0
        = chanOutput (runFrames rampState [rampFrame, constFrame]) 1 ∧
      chanHists (runFrames rampState [rampFrame, constFrame]) 0
        = chanHists (runFrames rampState [rampFrame, constFrame]) 1 ∧
      outputsOfFrames 0 rampState [rampFrame, constFrame]
        = outputsOfFrames 1 rampState [rampFrame, constFrame]) :=
  ⟨by decide, by decide, rfl, rfl,
    fun g hg => by
      rcases List.mem_cons.mp hg with e | hg
      · rw [e]; rfl
      · rcases List.mem_cons.mp hg with e | hg
        · rw [e]; rfl
        · exact absurd hg (List.not_mem_nil _),
    channel_symmetry rampFrame [constFrame] rampState 0 1 (by decide) (by decide) rfl rfl
      (fun g hg => by
        rcases List.mem_cons.mp hg with e | hg
        · rw [e]; rfl
        · rcases List.mem_cons.mp hg with e | hg
          · rw [e]; rfl
          · exact absurd hg (List.not_mem_nil _))⟩

/-- Claim C9. Channel non-interference: two driver states that agree on channel `B`
in input frame, coefficients and histories, and differ arbitrarily elsewhere, give
the same output frame and the same final histories for channel `B`. -/
theorem channel_noninterference (st st' : State) (B : Nat) (hB : B < NO_OF_CHANNELS)
    (hc : chanCoeffs st B = chanCoeffs st' B) (hh : chanHists st B = chanHists st' B)
    (hi : chanInput st B = chanInput st' B) :
    chanOutput (iirHWAcclDriver st) B = chanOutput (iirHWAcclDriver st') B ∧
    chanHists (iirHWAcclDriver st) B = chanHists (iirHWAcclDriver st') B := by
  have r := driver_runChannel st B hB
  have r' := driver_runChannel st' B hB
  rw [hc, hh, hi, ← r'] at r
  exact ⟨congrArg Prod.fst r, congrArg Prod.snd r⟩

theorem channel_noninterference_witness :
    1 < NO_OF_CHANNELS ∧
    chanCoeffs rampState 1 = chanCoeffs rampStateOther 1 ∧
    chanHists rampState 1 = chanHists rampStateOther 1 ∧
    chanInput rampState 1 = chanInput rampStateOther 1 ∧
    chanCoeffs rampState 0 ≠ chanCoeffs rampStateOther 0 ∧
    chanOutput (iirHWAcclDriver rampState) 1 = chanOutput (iirHWAcclDriver rampStateOther) 1 ∧
    chanHists (iirHWAcclDriver rampState) 1 = chanHists (iirHWAcclDriver rampStateOther) 1 :=
  ⟨by decide, by decide, by decide, by decide, by decide,
    channel_noninterference rampState rampStateOther 1 (by decide) (by decide) (by decide)
      (by decide)⟩


/-- Claim C11. Frame of the engine: a call of `iirSoS` leaves every entry of the
history row other than entries 0 and 1 as it was, and inside the driver that call
changes nothing but `sosHistBuf[ch][i][0..1]`; `iirHWAcclDriver` leaves `inputBuf`,
every entry of `sosCoeffBuff`, `audioInput` and `audioOutput` unchanged, and outside
the loop bounds it leaves `outputBuf` and `sosHistBuf` unchanged as well. -/
theorem engine_frame :
    (∀ (x : Int) (c h : Nat → Int) (k : Nat), 2 ≤ k → (iirSoS x c h).2 k = h k) ∧
    (∀ (ch : Nat) (acc : State × Int) (i : Nat),
      (sosLoopBody ch acc i).1.audioInput = acc.1.audioInput ∧
      (sosLoopBody ch acc i).1.audioOutput = acc.1.audioOutput ∧
      (sosLoopBody ch acc i).1.inputBuf = acc.1.inputBuf ∧
      (sosLoopBody ch acc i).1.outputBuf = acc.1.outputBuf ∧
      (sosLoopBody ch acc i).1.sosCoeffBuff = acc.1.sosCoeffBuff ∧
      ∀ c j k, (c ≠ ch ∨ j ≠ i ∨ 2 ≤ k) →
        (sosLoopBody ch acc i).1.sosHistBuf c j k = acc.1.sosHistBuf c j k) ∧
    (∀ st : State,
      (iirHWAcclDriver st).inputBuf = st.inputBuf ∧
      (iirHWAcclDriver st).sosCoeffBuff = st.sosCoeffBuff ∧
      (iirHWAcclDriver st).audioInput = st.audioInput ∧
      (iirHWAcclDriver st).audioOutput = st.audioOutput ∧
      (∀ c m, (NO_OF_CHANNELS ≤ c ∨ FRAME_LENGTH ≤ m) →
        (iirHWAcclDriver st).outputBuf c m = st.outputBuf c m) ∧
      (∀ c j k, (NO_OF_CHANNELS ≤ c ∨ NO_OF_SOS_STAGES ≤ j ∨ 2 ≤ k) →
        (iirHWAcclDriver st).sosHistBuf c j k = st.sosHistBuf c j k)) := by
  refine ⟨fun x c h k hk => iirSoS_hist_other x c h k hk, fun ch acc i => ?_, fun st => ?_⟩
  · exact ⟨rfl, rfl, rfl, rfl, rfl, fun c j k h => sosLoopBody_hist_other ch acc i c j k h⟩
  · obtain ⟨h1, h2, h3, h4⟩ := driver_frame st
    refine ⟨h3, h4, h1, h2, fun c m h => ?_, fun c j k h => ?_⟩
    · rcases h with h | h
      · have hc : c ∉ List.range NO_OF_CHANNELS :=
          fun e => absurd (List.mem_range.mp e) (by omega)
        exact congrFun (chLoop_other (List.range NO_OF_CHANNELS) st c hc).1 m
      · exact chLoop_out_range (List.range NO_OF_CHANNELS) st c m h
    · rcases h with h | h
      · have hc : c ∉ List.range NO_OF_CHANNELS :=
          fun e => absurd (List.mem_range.mp e) (by omega)
        exact congrFun (congrFun (chLoop_other (List.range NO_OF_CHANNELS) st c hc).2 j) k
      · exact chLoop_hist_range (List.range NO_OF_CHANNELS) st c j k h

/-- Claim C12. Channel order does not matter: running the channel body once per
channel in the order given by any permutation of the 8 channel indices produces the
same state as `iirHWAcclDriver`, in particular the same output frames and the same
final histories for all channels. -/
theorem channel_order_irrelevant (l : List Nat) (hp : l.Perm (List.range NO_OF_CHANNELS))
    (st : State) :
    l.foldl chLoopBody st = iirHWAcclDriver st ∧
    ∀ ch, ch < NO_OF_CHANNELS →
      chanOutput (l.foldl chLoopBody st) ch = chanOutput (iirHWAcclDriver st) ch ∧
      chanHists (l.foldl chLoopBody st) ch = chanHists (iirHWAcclDriver st) ch := by
  have e : l.foldl chLoopBody st = iirHWAcclDriver st :=
    chLoop_eq_of_mem l (List.range NO_OF_CHANNELS) (hp.nodup_iff.mpr (List.nodup_range _))
      (List.nodup_range _) (fun c => hp.mem_iff) st
  refine ⟨e, fun ch _ => ?_⟩
  rw [e]
  exact ⟨rfl, rfl⟩

theorem channel_order_irrelevant_witness :
    [3, 0, 7, 1, 6, 2, 5, 4].Perm (List.range NO_OF_CHANNELS) ∧
    ([3, 0, 7, 1, 6, 2, 5, 4].foldl chLoopBody rampState = iirHWAcclDriver rampState ∧
    ∀ ch, ch < NO_OF_CHANNELS →
      chanOutput ([3, 0, 7, 1, 6, 2, 5, 4].foldl chLoopBody rampState) ch
        = chanOutput (iirHWAcclDriver rampState) ch ∧
      chanHists ([3, 0, 7, 1, 6, 2, 5, 4].foldl chLoopBody rampState) ch
        = chanHists (iirHWAcclDriver rampState) ch) :=
  ⟨by decide, channel_order_irrelevant [3, 0, 7, 1, 6, 2, 5, 4] (by decide) rampState⟩

/-- Claim C13, counterexample. With the stored coefficient row `[1,0,0,1,1]`, history
`(0,0)` and input 1 the code returns `y = 1` and leaves the history `(-1,-1)`, whereas
additions in the stored values, `(b1*x + c3*y + s2, b2*x + c4*y)`, would give `(1,1)`. -/
theorem prenegated_additions_counterexample :
    (iirSoS 1 feedbackCoeffs zeroHist).1 = 1 ∧
    (iirSoS 1 feedbackCoeffs zeroHist).2 0 = -1 ∧
    (iirSoS 1 feedbackCoeffs zeroHist).2 1 = -1 ∧
    wrap32 (feedbackCoeffs 1 * 1 + feedbackCoeffs 3 * (iirSoS 1 feedbackCoeffs zeroHist).1
      + zeroHist 1) = 1 ∧
    wrap32 (feedbackCoeffs 2 * 1 + feedbackCoeffs 4 * (iirSoS 1 feedbackCoeffs zeroHist).1)
      = 1 ∧
    ¬ ((iirSoS 1 feedbackCoeffs zeroHist).2 0
        = wrap32 (feedbackCoeffs 1 * 1
            + feedbackCoeffs 3 * (iirSoS 1 feedbackCoeffs zeroHist).1 + zeroHist 1) ∧
      (iirSoS 1 feedbackCoeffs zeroHist).2 1
        = wrap32 (feedbackCoeffs 2 * 1
            + feedbackCoeffs 4 * (iirSoS 1 feedbackCoeffs zeroHist).1)) := by
  decide

/-- Claim C13, amended. The history update of `iirSoS` subtracts the stored slots 3
and 4: with `a1`, `a2` themselves stored the stage realises the transposed
Direct-Form-II equations `s1 = b1*x - a1*y + s2`, `s2 = b2*x - a2*y`; with the negated
values `-a1`, `-a2` stored it leaves `(b1*x + a1*y + s2, b2*x + a2*y)`. -/
theorem stored_feedback_is_subtracted (x b0 b1 b2 a1 a2 s1 s2 : Int) :
    ((iirSoS x (rowOf [b0, b1, b2, a1, a2]) (rowOf [s1, s2])).1 = wrap32 (b0 * x + s1) ∧
      (iirSoS x (rowOf [b0, b1, b2, a1, a2]) (rowOf [s1, s2])).2 0
        = wrap32 (b1 * x - a1 * (iirSoS x (rowOf [b0, b1, b2, a1, a2]) (rowOf [s1, s2])).1
            + s2) ∧
      (iirSoS x (rowOf [b0, b1, b2, a1, a2]) (rowOf [s1, s2])).2 1
        = wrap32 (b2 * x
            - a2 * (iirSoS x (rowOf [b0, b1, b2, a1, a2]) (rowOf [s1, s2])).1)) ∧
    ((iirSoS x (rowOf [b0, b1, b2, -a1, -a2]) (rowOf [s1, s2])).1 = wrap32 (b0 * x + s1) ∧
      (iirSoS x (rowOf [b0, b1, b2, -a1, -a2]) (rowOf [s1, s2])).2 0
        = wrap32 (b1 * x + a1 * (iirSoS x (rowOf [b0, b1, b2, -a1, -a2]) (rowOf [s1, s2])).1
            + s2) ∧
      (iirSoS x (rowOf [b0, b1, b2, -a1, -a2]) (rowOf [s1, s2])).2 1
        = wrap32 (b2 * x
            + a2 * (iirSoS x (rowOf [b0, b1, b2, -a1, -a2]) (rowOf [s1, s2])).1)) := by
  refine ⟨⟨?_, ?_, ?_⟩, ⟨?_, ?_, ?_⟩⟩
  · rw [iirSoS_out]; rfl
  · rw [iirSoS_hist0]; rfl
  · rw [iirSoS_hist1]; rfl
  · rw [iirSoS_out]; rfl
  · rw [iirSoS_hist0]
    apply congrArg wrap32
    show b1 * x - -a1 * _ + s2 = b1 * x + a1 * _ + s2
    ring
  · rw [iirSoS_hist1]
    apply congrArg wrap32
    show b2 * x - -a2 * _ = b2 * x + a2 * _
    ring

/-- Claim C14. One stage run by repeated `iirSoS` calls from history `(0,0)` satisfies
the direct difference equation
`y[n] = b0*x[n] + b1*x[n-1] + b2*x[n-2] - a1*y[n-1] - a2*y[n-2]` in 32-bit arithmetic
for every `n`, with `x` and `y` zero before the start, for every stored coefficient
row and every input sequence. -/
theorem transposed_equals_direct_form (c : Nat → Int) (xs : List Int) (n : Nat)
    (hn : n < xs.length) :
    (runSoS c zeroHist xs).1.getD n 0
      = wrap32 (c 0 * delayed xs n 0 + c 1 * delayed xs n 1 + c 2 * delayed xs n 2
          - c 3 * delayed (runSoS c zeroHist xs).1 n 1
          - c 4 * delayed (runSoS c zeroHist xs).1 n 2) := by
  have hy : ∀ m, m < xs.length → (runSoS c zeroHist xs).1.getD m 0
      = wrap32 (c 0 * xs.getD m 0 + histAfter c zeroHist (xs.take m) 0) := by
    intro m hm
    rw [runSoS_out_getD c zeroHist xs m hm, iirSoS_out]
  have h0 : ∀ m, m < xs.length → histAfter c zeroHist (xs.take (m + 1)) 0
      = wrap32 (c 1 * xs.getD m 0 - c 3 * (runSoS c zeroHist xs).1.getD m 0
          + histAfter c zeroHist (xs.take m) 1) := by
    intro m hm
    rw [histAfter_take_succ c zeroHist xs m hm, iirSoS_hist0, runSoS_out_getD c zeroHist xs m hm]
  have h1 : ∀ m, m < xs.length → histAfter c zeroHist (xs.take (m + 1)) 1
      = wrap32 (c 2 * xs.getD m 0 - c 4 * (runSoS c zeroHist xs).1.getD m 0) := by
    intro m hm
    rw [histAfter_take_succ c zeroHist xs m hm, iirSoS_hist1, runSoS_out_getD c zeroHist xs m hm]
  have hz0 : histAfter c zeroHist (xs.take 0) 0 = 0 := rfl
  have hz1 : histAfter c zeroHist (xs.take 0) 1 = 0 := rfl
  rw [hy n hn]
  apply wrap32_eq_of_modEq
  cases n with
  | zero =>
    rw [hz0]
    simp [delayed]
  | succ m =>
    have hm : m < xs.length := by omega
    rw [h0 m hm]
    cases m with
    | zero =>
      rw [hz1]
      have e : delayed xs (0 + 1) 0 = xs.getD 1 0 := by simp [delayed]
      have e1 : delayed xs (0 + 1) 1 = xs.getD 0 0 := by simp [delayed]
      have e2 : delayed xs (0 + 1) 2 = 0 := by simp [delayed]
      have f1 : delayed (runSoS c zeroHist xs).1 (0 + 1) 1
          = (runSoS c zeroHist xs).1.getD 0 0 := by simp [delayed]
      have f2 : delayed (runSoS c zeroHist xs).1 (0 + 1) 2 = 0 := by simp [delayed]
      rw [e, e1, e2, f1, f2]
      have l := (Int.ModEq.refl (c 0 * xs.getD 1 0)).add
        (wrap32_modEq (c 1 * xs.getD 0 0 - c 3 * (runSoS c zeroHist xs).1.getD 0 0 + 0))
      refine l.trans ?_
      have r : c 0 * xs.getD 1 0
            + (c 1 * xs.getD 0 0 - c 3 * (runSoS c zeroHist xs).1.getD 0 0 + 0)
          = c 0 * xs.getD 1 0 + c 1 * xs.getD 0 0 + c 2 * 0
            - c 3 * (runSoS c zeroHist xs).1.getD 0 0 - c 4 * 0 := by ring
      rw [r]
    | succ p =>
      have hp : p < xs.length := by omega
      rw [h1 p hp]
      have e : delayed xs (p + 1 + 1) 0 = xs.getD (p + 1 + 1) 0 := by simp [delayed]
      have e1 : delayed xs (p + 1 + 1) 1 = xs.getD (p + 1) 0 := by simp [delayed]
      have e2 : delayed xs (p + 1 + 1) 2 = xs.getD p 0 := by simp [delayed]
      have f1 : delayed (runSoS c zeroHist xs).1 (p + 1 + 1) 1
          = (runSoS c zeroHist xs).1.getD (p + 1) 0 := by simp [delayed]
      have f2 : delayed (runSoS c zeroHist xs).1 (p + 1 + 1) 2
          = (runSoS c zeroHist xs).1.getD p 0 := by simp [delayed]
      rw [e, e1, e2, f1, f2]
      have l := (Int.ModEq.refl (c 0 * xs.getD (p + 1 + 1) 0)).add
        ((wrap32_modEq (c 1 * xs.getD (p + 1) 0
            - c 3 * (runSoS c zeroHist xs).1.getD (p + 1) 0
            + wrap32 (c 2 * xs.getD p 0 - c 4 * (runSoS c zeroHist xs).1.getD p 0))).trans
          ((Int.ModEq.refl (c 1 * xs.getD (p + 1) 0
            - c 3 * (runSoS c zeroHist xs).1.getD (p + 1) 0)).add
            (wrap32_modEq (c 2 * xs.getD p 0 - c 4 * (runSoS c zeroHist xs).1.getD p 0))))
      refine l.trans ?_
      have r : c 0 * xs.getD (p + 1 + 1) 0
            + (c 1 * xs.getD (p + 1) 0 - c 3 * (runSoS c zeroHist xs).1.getD (p + 1) 0
              + (c 2 * xs.getD p 0 - c 4 * (runSoS c zeroHist xs).1.getD p 0))
          = c 0 * xs.getD (p + 1 + 1) 0 + c 1 * xs.getD (p + 1) 0 + c 2 * xs.getD p 0
            - c 3 * (runSoS c zeroHist xs).1.getD (p + 1) 0
            - c 4 * (runSoS c zeroHist xs).1.getD p 0 := by ring
      rw [r]

theorem transposed_equals_direct_form_witness :
    2 < [10, 5, -3, 4].length ∧
    (runSoS exampleCoeffs zeroHist [10, 5, -3, 4]).1.getD 2 0
      = wrap32 (exampleCoeffs 0 * delayed [10, 5, -3, 4] 2 0
          + exampleCoeffs 1 * delayed [10, 5, -3, 4] 2 1
          + exampleCoeffs 2 * delayed [10, 5, -3, 4] 2 2
          - exampleCoeffs 3 * delayed (runSoS exampleCoeffs zeroHist [10, 5, -3, 4]).1 2 1
          - exampleCoeffs 4 * delayed (runSoS exampleCoeffs zeroHist [10, 5, -3, 4]).1 2 2) :=
  ⟨by decide, transposed_equals_direct_form exampleCoeffs [10, 5, -3, 4] 2 (by decide)⟩

/-- Claim C15. Superposition: for fixed coefficients of a channel, running the
sample loop of the driver (over any number `N` of samples, and in particular
`iirHWAcclDriver` over a frame) on the samplewise 32-bit sum of two input sequences,
from the entrywise 32-bit sum of two history assignments of the 8 stages, gives for
every sample the 32-bit sum of the outputs of the two separate runs and leaves the
entrywise 32-bit sum of their final histories. -/
theorem cascade_superposition (N ch : Nat) (st st' st2 : State)
    (hc : chanCoeffs st' ch = chanCoeffs st ch) (hc2 : chanCoeffs st2 ch = chanCoeffs st ch)
    (hh : chanHists st2 ch = List.zipWith addHist (chanHists st ch) (chanHists st' ch))
    (hx : (List.range N).map (st2.inputBuf ch)
      = List.zipWith add32 ((List.range N).map (st.inputBuf ch))
          ((List.range N).map (st'.inputBuf ch))) :
    ((List.range N).map (((List.range N).foldl (smplLoopBody ch) st2).outputBuf ch)
        = List.zipWith add32
            ((List.range N).map (((List.range N).foldl (smplLoopBody ch) st).outputBuf ch))
            ((List.range N).map (((List.range N).foldl (smplLoopBody ch) st').outputBuf ch)) ∧
      chanHists ((List.range N).foldl (smplLoopBody ch) st2) ch
        = List.zipWith addHist (chanHists ((List.range N).foldl (smplLoopBody ch) st) ch)
            (chanHists ((List.range N).foldl (smplLoopBody ch) st') ch)) ∧
    (ch < NO_OF_CHANNELS → N = FRAME_LENGTH →
      chanOutput (iirHWAcclDriver st2) ch
        = List.zipWith add32 (chanOutput (iirHWAcclDriver st) ch)
            (chanOutput (iirHWAcclDriver st') ch) ∧
      chanHists (iirHWAcclDriver st2) ch
        = List.zipWith addHist (chanHists (iirHWAcclDriver st) ch)
            (chanHists (iirHWAcclDriver st') ch)) := by
  have hlen : (chanHists st ch).length = (chanHists st' ch).length := by
    rw [chanHists_length, chanHists_length]
  have hadd := runChannel_add (chanCoeffs st ch) (chanHists st ch) (chanHists st' ch) hlen
    ((List.range N).map (st.inputBuf ch)) ((List.range N).map (st'.inputBuf ch)) (by simp)
  constructor
  · have r := smplLoop_runChannel ch (List.range N) (List.nodup_range _) st
    have r' := smplLoop_runChannel ch (List.range N) (List.nodup_range _) st'
    have r2 := smplLoop_runChannel ch (List.range N) (List.nodup_range _) st2
    rw [hc] at r'
    rw [hc2, hh, hx, hadd, ← r, ← r'] at r2
    exact ⟨congrArg Prod.fst r2, congrArg Prod.snd r2⟩
  · intro hch hN
    subst hN
    have r := driver_runChannel st ch hch
    have r' := driver_runChannel st' ch hch
    have r2 := driver_runChannel st2 ch hch
    have hx2 : chanInput st2 ch = List.zipWith add32 (chanInput st ch) (chanInput st' ch) := hx
    have hadd2 : runChannel (chanCoeffs st ch)
        (List.zipWith addHist (chanHists st ch) (chanHists st' ch))
        (List.zipWith add32 (chanInput st ch) (chanInput st' ch))
        = (List.zipWith add32 (runChannel (chanCoeffs st ch) (chanHists st ch)
              (chanInput st ch)).1
            (runChannel (chanCoeffs st ch) (chanHists st' ch) (chanInput st' ch)).1,
          List.zipWith addHist (runChannel (chanCoeffs st ch) (chanHists st ch)
              (chanInput st ch)).2
            (runChannel (chanCoeffs st ch) (chanHists st' ch) (chanInput st' ch)).2) := hadd
    rw [hc] at r'
    rw [hc2, hh, hx2, hadd2, ← r, ← r'] at r2
    exact ⟨congrArg Prod.fst r2, congrArg Prod.snd r2⟩

set_option maxRecDepth 100000 in
theorem cascade_superposition_witness :
    chanCoeffs offsetState 0 = chanCoeffs rampState 0 ∧
    chanCoeffs sumState 0 = chanCoeffs rampState 0 ∧
    chanHists sumState 0
      = List.zipWith addHist (chanHists rampState 0) (chanHists offsetState 0) ∧
    (List.range 32).map (sumState.inputBuf 0)
      = List.zipWith add32 ((List.range 32).map (rampState.inputBuf 0))
          ((List.range 32).map (offsetState.inputBuf 0)) ∧
    (((List.range 32).map (((List.range 32).foldl (smplLoopBody 0) sumState).outputBuf 0)
        = List.zipWith add32
            ((List.range 32).map
              (((List.range 32).foldl (smplLoopBody 0) rampState).outputBuf 0))
            ((List.range 32).map
              (((List.range 32).foldl (smplLoopBody 0) offsetState).outputBuf 0)) ∧
      chanHists ((List.range 32).foldl (smplLoopBody 0) sumState) 0
        = List.zipWith addHist (chanHists ((List.range 32).foldl (smplLoopBody 0) rampState) 0)
            (chanHists ((List.range 32).foldl (smplLoopBody 0) offsetState) 0)) ∧
    (0 < NO_OF_CHANNELS → 32 = FRAME_LENGTH →
      chanOutput (iirHWAcclDriver sumState) 0
        = List.zipWith add32 (chanOutput (iirHWAcclDriver rampState) 0)
            (chanOutput (iirHWAcclDriver offsetState) 0) ∧
      chanHists (iirHWAcclDriver sumState) 0
        = List.zipWith addHist (chanHists (iirHWAcclDriver rampState) 0)
            (chanHists (iirHWAcclDriver offsetState) 0))) :=
  ⟨by decide, by decide, by decide, by decide,
    cascade_superposition 32 0 rampState offsetState sumState (by decide) (by decide)
      (by decide) (by decide)⟩

/-- Claim C16. Wraparound commutes with the computation: for every channel `ch < 8`,
computing the frame in unbounded integers from the same inputs, coefficients and
histories and reducing every output sample and every final history value to 32 bits
gives exactly the output frame and histories left by `iirHWAcclDriver`; in particular,
when the outputs and final histories of the unbounded computation are in the signed
32-bit range, the driver's results are the exact integer results. -/
theorem wraparound_commutes (st : State) (ch : Nat) (h : ch < NO_OF_CHANNELS) :
    (chanOutput (iirHWAcclDriver st) ch
        = (runChannelZ (chanCoeffs st ch) (chanHists st ch) (chanInput st ch)).1.map wrap32 ∧
      chanHists (iirHWAcclDriver st) ch
        = (runChannelZ (chanCoeffs st ch) (chanHists st ch) (chanInput st ch)).2.map wrapHist) ∧
    ((∀ y ∈ (runChannelZ (chanCoeffs st ch) (chanHists st ch) (chanInput st ch)).1,
        isInt32 y) →
      (∀ p ∈ (runChannelZ (chanCoeffs st ch) (chanHists st ch) (chanInput st ch)).2,
        isInt32 p.1 ∧ isInt32 p.2) →
      chanOutput (iirHWAcclDriver st) ch
        = (runChannelZ (chanCoeffs st ch) (chanHists st ch) (chanInput st ch)).1 ∧
      chanHists (iirHWAcclDriver st) ch
        = (runChannelZ (chanCoeffs st ch) (chanHists st ch) (chanInput st ch)).2) := by
  have r := driver_runChannel st ch h
  have r1 := congrArg Prod.fst r
  have r2 := congrArg Prod.snd r
  simp only at r1 r2
  have hcs : chanCoeffs st ch ≠ [] := by
    intro e
    have := chanCoeffs_length st ch
    rw [e] at this
    exact absurd this (by decide)
  have hlen : (chanHists st ch).length = (chanCoeffs st ch).length := by
    rw [chanHists_length, chanCoeffs_length]
  obtain ⟨w1, w2⟩ := runChannel_wrap (chanCoeffs st ch) (chanHists st ch) (chanHists st ch)
    (chanInput st ch) hcs hlen rfl
  have hne : chanInput st ch ≠ [] := by
    intro e
    have := chanInput_length st ch
    rw [e] at this
    exact absurd this (by decide)
  have hr := runChannel_hists_isInt32 (chanCoeffs st ch) (chanHists st ch) (chanInput st ch)
    (Or.inr hne)
  rw [map_wrapHist_of_isInt32 _ hr] at w2
  have main : chanOutput (iirHWAcclDriver st) ch
        = (runChannelZ (chanCoeffs st ch) (chanHists st ch) (chanInput st ch)).1.map wrap32 ∧
      chanHists (iirHWAcclDriver st) ch
        = (runChannelZ (chanCoeffs st ch) (chanHists st ch) (chanInput st ch)).2.map wrapHist :=
    ⟨r1.trans w1, r2.trans w2⟩
  refine ⟨main, fun ho hhist => ?_⟩
  rw [main.1, main.2, map_wrap32_of_isInt32 _ ho, map_wrapHist_of_isInt32 _ hhist]
  exact ⟨rfl, rfl⟩

set_option maxRecDepth 100000 in
theorem wraparound_commutes_witness :
    0 < NO_OF_CHANNELS ∧
    (∀ y ∈ (runChannelZ (chanCoeffs (withInput deadEndState onesFrame) 0)
        (chanHists (withInput deadEndState onesFrame) 0)
        (chanInput (withInput deadEndState onesFrame) 0)).1, isInt32 y) ∧
    (∀ p ∈ (runChannelZ (chanCoeffs (withInput deadEndState onesFrame) 0)
        (chanHists (withInput deadEndState onesFrame) 0)
        (chanInput (withInput deadEndState onesFrame) 0)).2, isInt32 p.1 ∧ isInt32 p.2) ∧
    ((chanOutput (iirHWAcclDriver (withInput deadEndState onesFrame)) 0
        = (runChannelZ (chanCoeffs (withInput deadEndState onesFrame) 0)
            (chanHists (withInput deadEndState onesFrame) 0)
            (chanInput (withInput deadEndState onesFrame) 0)).1.map wrap32 ∧
      chanHists (iirHWAcclDriver (withInput deadEndState onesFrame)) 0
        = (runChannelZ (chanCoeffs (withInput deadEndState onesFrame) 0)
            (chanHists (withInput deadEndState onesFrame) 0)
            (chanInput (withInput deadEndState onesFrame) 0)).2.map wrapHist) ∧
    ((∀ y ∈ (runChannelZ (chanCoeffs (withInput deadEndState onesFrame) 0)
        (chanHists (withInput deadEndState onesFrame) 0)
        (chanInput (withInput deadEndState onesFrame) 0)).1, isInt32 y) →
      (∀ p ∈ (runChannelZ (chanCoeffs (withInput deadEndState onesFrame) 0)
        (chanHists (withInput deadEndState onesFrame) 0)
        (chanInput (withInput deadEndState onesFrame) 0)).2, isInt32 p.1 ∧ isInt32 p.2) →
      chanOutput (iirHWAcclDriver (withInput deadEndState onesFrame)) 0
        = (runChannelZ (chanCoeffs (withInput deadEndState onesFrame) 0)
            (chanHists (withInput deadEndState onesFrame) 0)
            (chanInput (withInput deadEndState onesFrame) 0)).1 ∧
      chanHists (iirHWAcclDriver (withInput deadEndState onesFrame)) 0
        = (runChannelZ (chanCoeffs (withInput deadEndState onesFrame) 0)
            (chanHists (withInput deadEndState onesFrame) 0)
            (chanInput (withInput deadEndState onesFrame) 0)).2)) :=
  ⟨by decide, by decide, by decide,
    wraparound_commutes (withInput deadEndState onesFrame) 0 (by decide)⟩

/-- Claim C17. The frame loop of `main` has the bound `TOTAL_NO_OF_FRAMES = 64` but
steps by `FRAME_LENGTH`: whatever the fuel (at least 2), it runs its body for the loop
values 0 and 32 only, so `iirHWAcclDriver` is invoked twice, fed the stream samples
`0..31` and then `32..63` of every channel. -/
theorem main_frame_loop_runs_twice :
    TOTAL_NO_OF_FRAMES = 64 ∧
    (∀ (k : Nat) (st : State),
      mainFrameLoop (k + 2) st = frameLoopBody (frameLoopBody st 0) 32) ∧
    (∀ (st : State) (frame ch n : Nat), ch < NO_OF_CHANNELS → n < FRAME_LENGTH →
      ((List.range NO_OF_CHANNELS).foldl (copyFrameIn frame) st).inputBuf ch n
        = st.audioInput ch (frame + n)) := by
  refine ⟨by decide, fun k st => ?_, fun st frame ch n hch hn => ?_⟩
  · show forStep TOTAL_NO_OF_FRAMES FRAME_LENGTH frameLoopBody (k + 1 + 1) 0 st = _
    rw [forStep_step _ _ _ _ _ _ (by decide), forStep_step _ _ _ _ _ _ (by decide),
      forStep_done _ _ _ _ _ _ (by decide)]
    have e : 0 + FRAME_LENGTH = 32 := by decide
    rw [e]
  · exact copyLoop_input frame _ st ch n (List.mem_range.mpr hch) hn

/-- Claim C18. The frame loop of `main` never writes `audioOutput`: it is the same
after the loop as before, for every fuel. From `passState` the first invocation
leaves the filtered sample 1 for `audioInput[0][0]` in `outputBuf[0][0]`, and after
the loop `audioOutput[0][0]` is still 0. -/
theorem main_never_writes_audioOutput :
    (∀ (fuel : Nat) (st : State), (mainFrameLoop fuel st).audioOutput = st.audioOutput) ∧
    (frameLoopBody passState 0).outputBuf 0 0 = 1 ∧
    (mainFrameLoop TOTAL_NO_OF_FRAMES passState).audioOutput 0 0 = 0 := by
  have hall : ∀ (fuel : Nat) (st : State),
      (mainFrameLoop fuel st).audioOutput = st.audioOutput :=
    fun fuel st => forStep_audioOutput fuel 0 st
  refine ⟨hall, ?_, ?_⟩
  · obtain ⟨f1, _, _, f4, f5⟩ := copyLoop_frame 0 (List.range NO_OF_CHANNELS) passState
    have hin : ∀ n, n < FRAME_LENGTH →
        ((List.range NO_OF_CHANNELS).foldl (copyFrameIn 0) passState).inputBuf 0 n
          = (n : Int) + 1 := by
      intro n hn
      rw [copyLoop_input 0 _ passState 0 n (by decide) hn]
      simp [passState]
    have key := driver_identity_channel
      ((List.range NO_OF_CHANNELS).foldl (copyFrameIn 0) passState) 0 (by decide)
      (by
        intro i _
        rw [f4]
        exact ⟨rfl, rfl, rfl, rfl, rfl⟩)
      (by
        intro i _
        rw [f5]
        exact ⟨rfl, rfl⟩)
      (by
        intro n hn
        rw [hin n hn]
        unfold isInt32
        unfold FRAME_LENGTH at hn
        omega)
    unfold frameLoopBody
    rw [key.1 0 (by decide), hin 0 (by decide)]
    rfl
  · rw [hall]
    rfl

/-- Claim C19. Pass-through cascade: if all 8 stages of a channel have coefficients
`[1,0,0,0,0]` and histories `(0,0)`, then `iirHWAcclDriver` writes the channel's input
frame (of `int` samples) unchanged to its output frame and leaves all 8 histories of
the channel at `(0,0)`. -/
theorem driver_pass_through (st : State) (ch : Nat) (h : ch < NO_OF_CHANNELS)
    (hc : ∀ i, i < NO_OF_SOS_STAGES →
      st.sosCoeffBuff ch i 0 = 1 ∧ st.sosCoeffBuff ch i 1 = 0 ∧ st.sosCoeffBuff ch i 2 = 0 ∧
      st.sosCoeffBuff ch i 3 = 0 ∧ st.sosCoeffBuff ch i 4 = 0)
    (hh : ∀ i, i < NO_OF_SOS_STAGES → st.sosHistBuf ch i 0 = 0 ∧ st.sosHistBuf ch i 1 = 0)
    (hx : ∀ n, n < FRAME_LENGTH → isInt32 (st.inputBuf ch n)) :
    (∀ n, n < FRAME_LENGTH → (iirHWAcclDriver st).outputBuf ch n = st.inputBuf ch n) ∧
    (∀ i, i < NO_OF_SOS_STAGES →
      (iirHWAcclDriver st).sosHistBuf ch i 0 = 0 ∧ (iirHWAcclDriver st).sosHistBuf ch i 1 = 0) :=
  driver_identity_channel st ch h hc hh hx

theorem driver_pass_through_witness :
    2 < NO_OF_CHANNELS ∧
    (∀ i, i < NO_OF_SOS_STAGES →
      (withInput passState rampFrame).sosCoeffBuff 2 i 0 = 1 ∧
      (withInput passState rampFrame).sosCoeffBuff 2 i 1 = 0 ∧
      (withInput passState rampFrame).sosCoeffBuff 2 i 2 = 0 ∧
      (withInput passState rampFrame).sosCoeffBuff 2 i 3 = 0 ∧
      (withInput passState rampFrame).sosCoeffBuff 2 i 4 = 0) ∧
    (∀ i, i < NO_OF_SOS_STAGES →
      (withInput passState rampFrame).sosHistBuf 2 i 0 = 0 ∧
      (withInput passState rampFrame).sosHistBuf 2 i 1 = 0) ∧
    (∀ n, n < FRAME_LENGTH → isInt32 ((withInput passState rampFrame).inputBuf 2 n)) ∧
    (∀ n, n < FRAME_LENGTH →
      (iirHWAcclDriver (withInput passState rampFrame)).outputBuf 2 n
        = (withInput passState rampFrame).inputBuf 2 n) ∧
    (∀ i, i < NO_OF_SOS_STAGES →
      (iirHWAcclDriver (withInput passState rampFrame)).sosHistBuf 2 i 0 = 0 ∧
      (iirHWAcclDriver (withInput passState rampFrame)).sosHistBuf 2 i 1 = 0) :=
  ⟨by decide, fun _ _ => ⟨rfl, rfl, rfl, rfl, rfl⟩, fun _ _ => ⟨rfl, rfl⟩,
    fun n hn => by
      show isInt32 (2 * (n : Int) + 1)
      unfold isInt32
      unfold FRAME_LENGTH at hn
      omega,
    driver_pass_through (withInput passState rampFrame) 2 (by decide)
      (fun _ _ => ⟨rfl, rfl, rfl, rfl, rfl⟩) (fun _ _ => ⟨rfl, rfl⟩)
      (fun n hn => by
        show isInt32 (2 * (n : Int) + 1)
        unfold isInt32
        unfold FRAME_LENGTH at hn
        omega)⟩

end IirDriver
